import Mathlib

/-!
Verification development for the Static-Link-Web bundle store and package codec.

This file gives a shallow embedding, in Lean 4, of the persistence and
serialization core of the application:

* the data model (`types.ts`: `Bundle`, `BundleItem`),
* the bundle store operations (`hooks/useBundles.ts`, backed by a Dexie table
  whose primary key is `id`, cf. `db/db.ts`),
* the package codec (`services/bundleService.ts`: `createPackage`,
  `readPackage`, `base64ToBlob`).

Modelling conventions:

* ISO-8601 timestamp strings (whose chronological order coincides with their
  lexicographic order) are abstracted to `Nat`; each operation's calls to
  `new Date().toISOString()` are modelled by a single `now : Nat` parameter.
* `crypto.randomUUID()` is modelled by an explicit `newId : String` parameter.
* The Dexie table is modelled as a list of records; `get` finds the first
  record with the given primary key, `put` replaces it in place (or appends),
  `add` appends (key collisions with a fresh UUID are excluded by hypotheses
  in the theorems).  `where('id').anyOf(ids).toArray()` walks the primary-key
  index and therefore returns the matching records in ascending `id` order;
  this is modelled by sorting the matching records by `id`.
* A JavaScript array of `BundleItem` may, through out-of-range `splice`
  (cf. `moveItemInBundle`), come to hold the value `undefined`; item lists are
  therefore modelled as `List (Option BItem)`, `none` standing for
  `undefined`.
* JavaScript exceptions are modelled by `Option`/`Except` results: a store
  operation that can throw a `TypeError` (a property access on `undefined`)
  returns `Option Store`, `none` standing for the thrown exception.
* `JSON.parse(JSON.stringify(x))` deep copies are the identity in this model:
  the copied values contain nothing that the JSON round trip alters in an
  observable way (optional fields modelled `none` are absent either way).
-/

namespace StaticLink

/-- Item type tags, from the `ItemType` enum in `types.ts`. -/
inductive ItemType
  | link | note | file | audio | checklist | contact | location | drawing
  | email | code | qrCode
deriving DecidableEq, Repr

/-- A bundle item, from the `BundleItem` union in `types.ts`.  JavaScript
objects are duck-typed and the codec strips and re-attaches fields, so the
union is modelled as a single record whose variant payload fields are
optional (`none` = field absent).  Payload fields of variants never read by
the verified operations (contact, location, email, code, qr text fields) are
omitted from the model; no verified operation inspects them. -/
structure BItem where
  id : String
  type : ItemType
  title : String
  createdAt : Nat
  color : Option String := none
  isPinned : Option Bool := none
  url : Option String := none
  text : Option String := none
  filename : Option String := none
  mimeType : Option String := none
  size : Option Nat := none
  content : Option String := none
  checksum : Option String := none
  duration : Option Nat := none
deriving DecidableEq, Repr

/-- A bundle record, from the `Bundle` interface in `types.ts`.  Optional
fields are `Option`s; `items` entries are `Option BItem` with `none`
standing for a JavaScript `undefined` array slot (see module comment). -/
structure Bundle where
  id : String
  title : String
  createdAt : Nat
  updatedAt : Nat
  items : List (Option BItem)
  isLocked : Option Bool := none
  passwordHash : Option String := none
  isPinned : Option Bool := none
  isArchived : Option Bool := none
  isDeleted : Option Bool := none
  deletedAt : Option Nat := none
deriving DecidableEq, Repr

/-- The persisted collection: the Dexie `bundles` table, primary key `id`. -/
abbrev Store := List Bundle

/-- Dexie `db.bundles.get(id)`: the record with primary key `id`
(the table keeps keys unique; on a list model, the first match). -/
def dbGet (s : Store) (id : String) : Option Bundle :=
  s.find? (fun b => b.id == id)

/-- Dexie `db.bundles.put(b)`: replace the record whose key is `b.id`,
or insert `b` if no record has that key. -/
def dbPut (s : Store) (b : Bundle) : Store :=
  match s with
  | [] => [b]
  | x :: rest => if x.id == b.id then b :: rest else x :: dbPut rest b

/-- Dexie `db.bundles.add(b)`: insert a record with a fresh primary key.
Key collisions (Dexie would reject the add) are excluded by hypotheses in
the theorems, the inserted `id` being a fresh UUID in the source. -/
def dbAdd (s : Store) (b : Bundle) : Store := s ++ [b]

/-- Dexie `db.bundles.bulkPut(l)`: put each record in order. -/
def bulkPut (s : Store) (l : List Bundle) : Store := l.foldl dbPut s

/-- Lexicographic comparison of character lists by code point, the order
IndexedDB uses on string primary keys. -/
def charListLe : List Char → List Char → Bool
  | [], _ => true
  | _ :: _, [] => false
  | c :: cs, d :: ds =>
      if c.toNat < d.toNat then true
      else if d.toNat < c.toNat then false
      else charListLe cs ds

/-- The IndexedDB ordering of string primary keys. -/
def idLe (a b : String) : Bool := charListLe a.toList b.toList

/-- Insertion of a bundle into a list sorted by ascending `id`. -/
def insertById (b : Bundle) : List Bundle → List Bundle
  | [] => [b]
  | x :: rest => if idLe b.id x.id then b :: x :: rest else x :: insertById b rest

/-- Sorting a list of bundles by ascending `id` (insertion sort). -/
def sortById : List Bundle → List Bundle
  | [] => []
  | x :: rest => insertById x (sortById rest)

/-- Dexie `db.bundles.where('id').anyOf(ids).toArray()`: the records whose
primary key is among `ids`, in ascending primary-key order (Dexie walks the
`id` index, so the result order is the index order, not the order of `ids`). -/
def anyOfToArray (s : Store) (ids : List String) : List Bundle :=
  sortById (s.filter (fun b => ids.contains b.id))

/-- The table invariant: primary keys are unique. -/
abbrev UniqueIds (s : Store) : Prop := (s.map Bundle.id).Nodup

/-- Shallow merge of one optional field: a field provided by the update
(JavaScript object spread) overrides the existing one. -/
def mergeField (upd old : Option α) : Option α :=
  match upd with
  | some v => some v
  | none => old

/-- A `Partial<Bundle>` argument to `updateBundle`.  Only the fields the
application's callers actually pass are modelled; `none` = field absent.
(The source always overwrites `updatedAt` after the spread, so an
`updatedAt` inside `updates` would be ignored anyway.) -/
structure BundleUpdates where
  title : Option String := none
  items : Option (List (Option BItem)) := none
  isPinned : Option Bool := none
  isArchived : Option Bool := none
  isLocked : Option Bool := none
  passwordHash : Option String := none
deriving Repr

/-- JavaScript spread `{ ...bundle, ...updates }`. -/
def applyBundleUpdates (b : Bundle) (u : BundleUpdates) : Bundle :=
  { b with
    title := u.title.getD b.title
    items := u.items.getD b.items
    isPinned := mergeField u.isPinned b.isPinned
    isArchived := mergeField u.isArchived b.isArchived
    isLocked := mergeField u.isLocked b.isLocked
    passwordHash := mergeField u.passwordHash b.passwordHash }

/-- A `Partial<BundleItem>` argument to `updateItemInBundle`; only fields the
callers pass are modelled. -/
structure ItemUpdates where
  title : Option String := none
  color : Option String := none
  isPinned : Option Bool := none
  url : Option String := none
  text : Option String := none
  content : Option String := none
deriving Repr

/-- JavaScript spread `{ ...item, ...itemUpdates }`. -/
def applyItemUpdates (it : BItem) (u : ItemUpdates) : BItem :=
  { it with
    title := u.title.getD it.title
    color := mergeField u.color it.color
    isPinned := mergeField u.isPinned it.isPinned
    url := mergeField u.url it.url
    text := mergeField u.text it.text
    content := mergeField u.content it.content }

/-- Source `addBundle(title)` in `useBundles.ts`: a new bundle with a fresh
id, both timestamps set to now and an empty item list. -/
def addBundle (s : Store) (title : String) (newId : String) (now : Nat) : Store :=
  dbAdd s { id := newId, title := title, createdAt := now, updatedAt := now, items := [] }

/-- Source `importBundle(bundleData)`: the imported data with a fresh id and
fresh timestamps (the argument's `id`, `createdAt` and `updatedAt`, omitted
by its TypeScript type, are modelled as overridden fields). -/
def importBundle (s : Store) (data : Bundle) (newId : String) (now : Nat) : Store :=
  dbAdd s { data with id := newId, createdAt := now, updatedAt := now }

/-- Source `duplicateBundle(bundleId)`: deep-copies the record (identity in
this model), overriding id, title (copy suffix), both timestamps, and the
deletion fields; silently does nothing when the id is absent. -/
def duplicateBundle (s : Store) (bundleId : String) (newId : String) (now : Nat) : Store :=
  match dbGet s bundleId with
  | none => s
  | some b =>
      dbAdd s { b with
        id := newId
        title := b.title ++ " (Copy)"
        createdAt := now
        updatedAt := now
        isDeleted := some false
        deletedAt := none }

/-- Source `updateBundle(id, updates)`: get-then-put inside a transaction;
spreads the updates over the record and overwrites `updatedAt` with now;
silently does nothing when the id is absent. -/
def updateBundle (s : Store) (id : String) (u : BundleUpdates) (now : Nat) : Store :=
  match dbGet s id with
  | none => s
  | some b => dbPut s { applyBundleUpdates b u with updatedAt := now }

/-- Source `deleteBundle(id)` (soft delete): sets `isDeleted`, `deletedAt`
and forces `isPinned` false; note that it does not touch `updatedAt`. -/
def deleteBundle (s : Store) (id : String) (now : Nat) : Store :=
  match dbGet s id with
  | none => s
  | some b =>
      dbPut s { b with isDeleted := some true, deletedAt := some now, isPinned := some false }

/-- Source `deleteBundles(ids)` (bulk soft delete): mutates every matching
record and writes them back with `bulkPut`; `updatedAt` is not touched. -/
def deleteBundles (s : Store) (ids : List String) (now : Nat) : Store :=
  bulkPut s ((anyOfToArray s ids).map (fun b =>
    { b with isDeleted := some true, deletedAt := some now, isPinned := some false }))

/-- Source `archiveBundles(ids)`: sets `isArchived` and forces `isPinned`
false on every matching record; neither `updatedAt` nor any other field is
touched (the function reads no clock at all). -/
def archiveBundles (s : Store) (ids : List String) : Store :=
  bulkPut s ((anyOfToArray s ids).map (fun b =>
    { b with isArchived := some true, isPinned := some false }))

/-- Source `restoreBundle(id)`: clears the deletion fields only; `isPinned`,
`isArchived` and `updatedAt` are left as they are. -/
def restoreBundle (s : Store) (id : String) : Store :=
  match dbGet s id with
  | none => s
  | some b => dbPut s { b with isDeleted := some false, deletedAt := none }

/-- Source `permanentlyDeleteBundle(id)`: `db.bundles.delete(id)` removes
the record with that primary key. -/
def permanentlyDeleteBundle (s : Store) (id : String) : Store :=
  s.filter (fun b => ¬ b.id == id)

/-- Source `mergeBundles(bundleIds, newTitle)`: queries the sources with
`where('id').anyOf(bundleIds)` (hence ascending-id order, not argument
order), concatenates their item arrays, deep-copies them (identity in this
model) and adds one brand-new bundle holding the result. -/
def mergeBundles (s : Store) (bundleIds : List String) (newTitle : String)
    (newId : String) (now : Nat) : Store :=
  let bundlesToMerge := anyOfToArray s bundleIds
  let allItems := (bundlesToMerge.map Bundle.items).flatten
  dbAdd s { id := newId, title := newTitle, createdAt := now, updatedAt := now, items := allItems }

/-- Source `addItemToBundle(bundleId, item)`: appends the item and bumps
`updatedAt`; silently does nothing when the bundle id is absent. -/
def addItemToBundle (s : Store) (bundleId : String) (item : BItem) (now : Nat) : Store :=
  match dbGet s bundleId with
  | none => s
  | some b => dbPut s { b with items := b.items ++ [some item], updatedAt := now }

/-- Source `addItemsToBundle(bundleId, items)`: appends all items and bumps
`updatedAt`. -/
def addItemsToBundle (s : Store) (bundleId : String) (newItems : List BItem) (now : Nat) : Store :=
  match dbGet s bundleId with
  | none => s
  | some b => dbPut s { b with items := b.items ++ newItems.map some, updatedAt := now }

/-- JavaScript `items.findIndex(i => i.id === itemId)` fused with the write
`items[itemIndex] = { ...items[itemIndex], ...itemUpdates }`: the predicate
dereferences `i.id`, so the scan throws a `TypeError` (modelled `.error`) at
the first `undefined` slot reached before a match; `.ok none` models a `-1`
index (no match, nothing written); `.ok (some l)` is the updated array. -/
def jsUpdateItem : List (Option BItem) → String → ItemUpdates →
    Except Unit (Option (List (Option BItem)))
  | [], _, _ => .ok none
  | none :: _, _, _ => .error ()
  | some b :: rest, itemId, u =>
      if b.id == itemId then .ok (some (some (applyItemUpdates b u) :: rest))
      else (jsUpdateItem rest itemId u).map (Option.map (fun l => some b :: l))

/-- Source `updateItemInBundle(bundleId, itemId, itemUpdates)`: silently does
nothing when the bundle id is absent, or when the item id is not found;
writes the shallow-merged item and bumps `updatedAt` otherwise.  The result
is `none` when the scan hits an `undefined` item slot (thrown `TypeError`). -/
def updateItemInBundle (s : Store) (bundleId itemId : String) (u : ItemUpdates)
    (now : Nat) : Option Store :=
  match dbGet s bundleId with
  | none => some s
  | some b =>
      match jsUpdateItem b.items itemId u with
      | .error _ => none
      | .ok none => some s
      | .ok (some items') => some (dbPut s { b with items := items', updatedAt := now })

/-- JavaScript `findIndex` fused with the copy insertion of
`duplicateItemInBundle`: on the first matching item builds the deep copy
with fresh id and timestamp, suffixed title and cleared pin, and splices it
in immediately after the original.  Error/none conventions as in
`jsUpdateItem`. -/
def jsDuplicateItem : List (Option BItem) → String → String → Nat →
    Except Unit (Option (List (Option BItem)))
  | [], _, _, _ => .ok none
  | none :: _, _, _, _ => .error ()
  | some b :: rest, itemId, newItemId, now =>
      if b.id == itemId then
        let newItem : BItem :=
          { b with
            id := newItemId
            createdAt := now
            title := b.title ++ " (Copy)"
            isPinned := some false }
        .ok (some (some b :: some newItem :: rest))
      else (jsDuplicateItem rest itemId newItemId now).map (Option.map (fun l => some b :: l))

/-- Source `duplicateItemInBundle(bundleId, itemId)`. -/
def duplicateItemInBundle (s : Store) (bundleId itemId : String) (newItemId : String)
    (now : Nat) : Option Store :=
  match dbGet s bundleId with
  | none => some s
  | some b =>
      match jsDuplicateItem b.items itemId newItemId now with
      | .error _ => none
      | .ok none => some s
      | .ok (some items') => some (dbPut s { b with items := items', updatedAt := now })

/-- JavaScript `items.filter(item => item.id !== itemId)`: keeps order,
evaluates the predicate left to right, throws (`.error`) at the first
`undefined` slot. -/
def jsFilterOutId : List (Option BItem) → String → Except Unit (List (Option BItem))
  | [], _ => .ok []
  | none :: _, _ => .error ()
  | some b :: rest, itemId =>
      (jsFilterOutId rest itemId).map (fun l => if b.id == itemId then l else some b :: l)

/-- Source `removeItemFromBundle(bundleId, itemId)`: filters the item out and
bumps `updatedAt` (the record is written back even when nothing matched). -/
def removeItemFromBundle (s : Store) (bundleId itemId : String) (now : Nat) : Option Store :=
  match dbGet s bundleId with
  | none => some s
  | some b =>
      match jsFilterOutId b.items itemId with
      | .error _ => none
      | .ok items' => some (dbPut s { b with items := items', updatedAt := now })

/-- JavaScript `items.filter(item => !itemIds.has(item.id))`, the `Set`
modelled as a list of ids. -/
def jsFilterOutIds : List (Option BItem) → List String → Except Unit (List (Option BItem))
  | [], _ => .ok []
  | none :: _, _ => .error ()
  | some b :: rest, itemIds =>
      (jsFilterOutIds rest itemIds).map (fun l => if itemIds.contains b.id then l else some b :: l)

/-- Source `removeItemsFromBundle(bundleId, itemIds)`. -/
def removeItemsFromBundle (s : Store) (bundleId : String) (itemIds : List String)
    (now : Nat) : Option Store :=
  match dbGet s bundleId with
  | none => some s
  | some b =>
      match jsFilterOutIds b.items itemIds with
      | .error _ => none
      | .ok items' => some (dbPut s { b with items := items', updatedAt := now })

/-- JavaScript
`const [movedItem] = items.splice(fromIndex, 1); items.splice(toIndex, 0, movedItem)`
for non-negative indices (the only ones the UI passes).  `splice(f, 1)` with
`f ≥ length` removes nothing, so `movedItem` is `undefined` (`none`), which
the second splice then inserts; `splice(t, 0, x)` with `t ≥ length` appends.
No property of `movedItem` is dereferenced, so this never throws. -/
def jsArrayMove (l : List (Option BItem)) (fromIndex toIndex : Nat) : List (Option BItem) :=
  let removed := (l.drop fromIndex).take 1
  let l1 := l.take fromIndex ++ l.drop (fromIndex + 1)
  let moved : Option BItem := match removed with | [] => none | x :: _ => x
  l1.take toIndex ++ [moved] ++ l1.drop toIndex

/-- Source `moveItemInBundle(bundleId, fromIndex, toIndex)`: performs the two
splices (no bounds check) and bumps `updatedAt`. -/
def moveItemInBundle (s : Store) (bundleId : String) (fromIndex toIndex : Nat)
    (now : Nat) : Store :=
  match dbGet s bundleId with
  | none => s
  | some b => dbPut s { b with items := jsArrayMove b.items fromIndex toIndex, updatedAt := now }

/-! Base64, as used by `atob` in `base64ToBlob` (decoding) and by JSZip's
`async('base64')` (encoding) in `bundleService.ts`.  Bytes are `Nat`s below
256; the byte range is tracked by explicit lemmas, not by a fixed-width
type. -/

/-- The base64 alphabet, index `n` holding the digit of value `n`. -/
def b64Alphabet : List Char :=
  "ABCDEFGHIJKLMNOPQRSTUVWXYZabcdefghijklmnopqrstuvwxyz0123456789+/".toList

/-- The base64 digit of a sextet value. -/
def sextetChar (n : Nat) : Char := b64Alphabet.getD n 'A'

/-- The sextet value of a base64 digit, `none` for a character outside the
alphabet. -/
def charSextet (c : Char) : Option Nat :=
  let i := b64Alphabet.indexOf c
  if i < 64 then some i else none

/-- Canonical base64 encoding of a byte list (JSZip's `async('base64')`). -/
def encodeB64 : List Nat → List Char
  | [] => []
  | [a] => [sextetChar (a / 4), sextetChar (a % 4 * 16), '=', '=']
  | [a, b] => [sextetChar (a / 4), sextetChar (a % 4 * 16 + b / 16), sextetChar (b % 16 * 4), '=']
  | a :: b :: c :: rest =>
      sextetChar (a / 4) :: sextetChar (a % 4 * 16 + b / 16) ::
      sextetChar (b % 16 * 4 + c / 64) :: sextetChar (c % 64) :: encodeB64 rest

/-- Base64 decoding as performed by `atob`: input length must be a multiple
of four, `=` padding may close the final quadruple, any other malformation
throws (modelled `none`).  Like `atob`, the bits a padded quadruple discards
are not required to be zero. -/
def decodeB64 : List Char → Option (List Nat)
  | [] => some []
  | c1 :: c2 :: c3 :: c4 :: rest =>
      match charSextet c1, charSextet c2 with
      | some s1, some s2 =>
          if c3 = '=' then
            if c4 = '=' then
              if rest = [] then some [s1 * 4 + s2 / 16] else none
            else none
          else
            match charSextet c3 with
            | some s3 =>
                if c4 = '=' then
                  if rest = [] then some [s1 * 4 + s2 / 16, s2 % 16 * 16 + s3 / 4] else none
                else
                  match charSextet c4 with
                  | some s4 =>
                      (decodeB64 rest).map (fun bs =>
                        (s1 * 4 + s2 / 16) :: (s2 % 16 * 16 + s3 / 4) :: (s3 % 4 * 64 + s4) :: bs)
                  | none => none
            | none => none
      | _, _ => none
  | _ => none

/-- JavaScript `String.prototype.split` with a one-character separator,
modelled on the character list.  An empty input gives `[[]]`, as JS
`"".split(',')` gives `[""]`. -/
def splitOnChar (sep : Char) : List Char → List (List Char)
  | [] => [[]]
  | c :: rest =>
      let r := splitOnChar sep rest
      if c = sep then [] :: r
      else
        match r with
        | [] => [[c]]
        | g :: gs => (c :: g) :: gs

/-- Source `base64ToBlob(base64, mimeType)` in `bundleService.ts`:
`atob(base64.split(',')[1])` turned into bytes chunk by chunk.  The blob's
bytes are exactly the decoded bytes (the 512-wide chunking only batches the
`charCodeAt` loop), and the mime type argument only tags the blob, so the
model returns the bytes; `none` models the exception thrown when there is no
second comma-separated segment or when it is not valid base64. -/
def base64ToBlob (base64 : String) : Option (List Nat) :=
  match (splitOnChar ',' base64.toList).get? 1 with
  | none => none
  | some part => decodeB64 part

/-- Data-URI assembly used by `readPackage`:
`data:{mimeType};base64,{base64Content}`. -/
def dataUri (mimeType : String) (payload : String) : String :=
  "data:" ++ mimeType ++ ";base64," ++ payload

/-- JavaScript `item.mimeType || 'application/octet-stream'` (both an absent
and an empty mime type are falsy). -/
def jsOrDefaultMime (m : Option String) : String :=
  match m with
  | some s => if s = "" then "application/octet-stream" else s
  | none => "application/octet-stream"

/-- JavaScript `item.filename` used as a zip entry key: an absent field is
`undefined`, which JSZip coerces to the string key "undefined". -/
def jsFilenameOf (it : BItem) : String := it.filename.getD "undefined"

/-- The binary-bearing item types: `ItemType.FILE`, `ItemType.AUDIO`,
`ItemType.DRAWING` in `createPackage`, and the identical string-tag test in
`readPackage`. -/
def isBinaryType (t : ItemType) : Bool := t == .file || t == .audio || t == .drawing

/-- The manifest record written by `createPackage` (`manifest.json`). -/
structure Manifest where
  bundle_id : String
  created_at : Nat
  title : String
  items : List BItem
  format_version : Nat
  encrypted : Bool
deriving DecidableEq, Repr

/-- A zip entry, abstracted by the two ways `readPackage` observes it: its
parse as a manifest (`async('string')` followed by `JSON.parse` and the
schema accesses — `none` models any parse or schema failure) and its raw
bytes (`async('base64')` re-encodes exactly these).  This abstracts the
concrete byte string of a text entry, whose JSON serialization is not
modelled: `createPackage` gives the manifest entry `bytes := []` and binary
entries `asManifest := none`, and every theorem below keeps the two reads
apart by hypothesis (no item is named `manifest.json`). -/
structure ZEntry where
  asManifest : Option Manifest
  bytes : List Nat
deriving DecidableEq, Repr

/-- A zip container: named entries, later writes overriding earlier ones. -/
abbrev Package := List (String × ZEntry)

/-- JSZip `zip.file(name, data)`: set the entry under `name`. -/
def zput (p : Package) (name : String) (e : ZEntry) : Package :=
  match p with
  | [] => [(name, e)]
  | (n, x) :: rest => if n == name then (name, e) :: rest else (n, x) :: zput rest name e

/-- JSZip `zip.file(name)`: the entry under `name`, if any. -/
def zfile (p : Package) (name : String) : Option ZEntry :=
  (p.find? (fun kv => kv.1 == name)).map (fun kv => kv.2)

/-- The manifest's stripping of a binary item:
`const { content, ...rest } = item`. -/
def stripContent (it : BItem) : BItem := { it with content := none }

/-- JavaScript mapping over a possibly `undefined`-holding array where the
body dereferences each element: `none` models the thrown `TypeError`. -/
def allSomeItems : List (Option BItem) → Option (List BItem)
  | [] => some []
  | none :: _ => none
  | some b :: rest => (allSomeItems rest).map (fun l => b :: l)

/-- The `bundle.items.forEach` loop of `createPackage`: writes one zip entry
per binary-bearing item, keyed by its filename, holding the decoded bytes of
its content; a failing `base64ToBlob` (or an absent content) throws and
aborts the whole package. -/
def addBinaryEntries : Package → List BItem → Option Package
  | p, [] => some p
  | p, it :: rest =>
      if isBinaryType it.type then
        match it.content with
        | none => none
        | some c =>
            match base64ToBlob c with
            | none => none
            | some bytes =>
                addBinaryEntries (zput p (jsFilenameOf it) { asManifest := none, bytes := bytes }) rest
      else addBinaryEntries p rest

/-- Source `createPackage(bundle)` in `bundleService.ts`: builds the manifest
(binary items stripped of `content`), writes it as `manifest.json`, then
writes the decoded bytes of every binary-bearing item under its filename. -/
def createPackage (b : Bundle) : Option Package :=
  match allSomeItems b.items with
  | none => none
  | some its =>
      let manifest : Manifest :=
        { bundle_id := b.id
          created_at := b.createdAt
          title := b.title
          items := its.map (fun it => if isBinaryType it.type then stripContent it else it)
          format_version := 1
          encrypted := false }
      addBinaryEntries [("manifest.json", { asManifest := some manifest, bytes := [] })] its

/-- The failure modes of `readPackage`: the explicitly thrown
`Error('Invalid package: manifest.json not found.')` (`formatError`) and a
propagated `JSON.parse`/schema failure on the manifest text (`parseError`). -/
inductive ReadErr
  | formatError | parseError
deriving DecidableEq, Repr

/-- The bundle data `readPackage` returns: `{ title, items }`, the caller
assigning fresh id and timestamps. -/
structure BundleData where
  title : String
  items : List BItem
deriving DecidableEq, Repr

/-- The per-item body of `readPackage`: a binary-bearing manifest item gets
its content re-attached as a data URI built from the zip entry under its
filename and its declared (or defaulted) mime type; when that entry is
missing, or for any other item type, the item is returned unchanged. -/
def reattachItem (p : Package) (it : BItem) : BItem :=
  if isBinaryType it.type then
    match zfile p (jsFilenameOf it) with
    | some e =>
        { it with
          content := some (dataUri (jsOrDefaultMime it.mimeType) (String.mk (encodeB64 e.bytes))) }
    | none => it
  else it

/-- Source `readPackage(file)` in `bundleService.ts`: fails with the
missing-manifest error when the container has no `manifest.json` entry,
propagates a manifest parse failure, and otherwise returns the manifest's
title and its items with binary contents re-attached. -/
def readPackage (p : Package) : Except ReadErr BundleData :=
  match zfile p "manifest.json" with
  | none => .error .formatError
  | some e =>
      match e.asManifest with
      | none => .error .parseError
      | some m => .ok { title := m.title, items := m.items.map (reattachItem p) }

/-- The timestamp invariant: every record was updated no earlier than it was
created. -/
abbrev TimeInv (s : Store) : Prop := ∀ b ∈ s, b.createdAt ≤ b.updatedAt

/-- The filenames of the binary-bearing items, i.e. the zip entry keys the
`forEach` loop of `createPackage` writes. -/
def binFilenames (its : List BItem) : List String :=
  (its.filter (fun it => isBinaryType it.type)).map jsFilenameOf

/-- The binary payload an item's content decodes to via `base64ToBlob`
(`none` when the content is absent or does not decode). -/
def itemBytes (it : BItem) : Option (List Nat) :=
  match it.content with
  | none => none
  | some c => base64ToBlob c

/-- The item count of the bundle stored under a given id (0 when absent). -/
def sourceItemCount (s : Store) (i : String) : Nat :=
  match dbGet s i with
  | none => 0
  | some b => b.items.length

/-- Concrete note item used by witnesses and counterexamples. -/
def wNote (i : String) : BItem := { id := i, type := ItemType.note, title := i, createdAt := 0 }

/-- Concrete file item with duplicated filename, first payload (byte 0). -/
def cexFile1 : BItem :=
  { id := "i1", type := ItemType.file, title := "f1", createdAt := 0,
    filename := some "f", mimeType := some "text/plain", size := some 1,
    content := some "data:text/plain;base64,AA==", checksum := some "sum0" }

/-- Concrete file item with duplicated filename, second payload (byte 1). -/
def cexFile2 : BItem :=
  { id := "i2", type := ItemType.file, title := "f2", createdAt := 0,
    filename := some "f", mimeType := some "text/plain", size := some 1,
    content := some "data:text/plain;base64,AQ==", checksum := some "sum1" }

/-- Concrete bundle holding two file items that share one filename. -/
def cexBundle : Bundle :=
  { id := "b1", title := "B", createdAt := 0, updatedAt := 0,
    items := [some cexFile1, some cexFile2] }

/-- The composition the round-trip property talks about:
`readPackage(createPackage(bundle))`. -/
def roundTrip (b : Bundle) : Option BundleData :=
  (createPackage b).bind (fun p => (readPackage p).toOption)

/-- Concrete pinned bundle used by witnesses. -/
def wBundleA : Bundle :=
  { id := "a", title := "A", createdAt := 0, updatedAt := 1,
    items := [some (wNote "x")], isPinned := some true, isArchived := some false }

/-- Concrete two-item bundle used by witnesses. -/
def wBundleB : Bundle :=
  { id := "b", title := "B", createdAt := 0, updatedAt := 2,
    items := [some (wNote "y"), some (wNote "z")] }

/-- Concrete store used by witnesses. -/
def wStore : Store := [wBundleA, wBundleB]

/-- Concrete well-formed file item used by the round-trip witness. -/
def wFile : BItem :=
  { id := "i1", type := ItemType.file, title := "doc", createdAt := 0,
    filename := some "doc.bin", mimeType := some "text/plain", size := some 3,
    content := some "data:text/plain;base64,TWFu", checksum := some "sumMan" }

/-- Concrete bundle holding one file item and one note. -/
def wFileBundle : Bundle :=
  { id := "fb", title := "FB", createdAt := 0, updatedAt := 0,
    items := [some wFile, some (wNote "n")] }

/-- Concrete manifest item that references a missing binary entry. -/
def wOrphanFile : BItem :=
  { id := "i9", type := ItemType.file, title := "gone", createdAt := 0,
    filename := some "missing.bin", mimeType := some "text/plain", size := some 3 }

/-- Concrete manifest used by the `readPackage` witness. -/
def wManifest : Manifest :=
  { bundle_id := "b9", created_at := 0, title := "T",
    items := [wOrphanFile, wNote "n"], format_version := 1, encrypted := false }

/-- Concrete package holding only a manifest whose file entry is missing. -/
def wPackage : Package :=
  [("manifest.json", { asManifest := some wManifest, bytes := [] })]

/-! Lemmas about the table primitives. -/

theorem dbGet_dbPut_self (s : Store) (b : Bundle) (i : String) (h : b.id = i) :
    dbGet (dbPut s b) i = some b := by
  have hbi : (b.id == i) = true := beq_iff_eq.mpr h
  induction s with
  | nil => simp [dbGet, dbPut, List.find?, hbi]
  | cons x rest ih =>
      by_cases hx : (x.id == b.id) = true
      · simp only [dbPut, hx, if_true]
        simp [dbGet, List.find?, hbi]
      · simp only [dbPut, hx, if_false, Bool.false_eq_true]
        have hx' : ¬ x.id = b.id := by simpa using hx
        have hxi : (x.id == i) = false := by
          rw [beq_eq_false_iff_ne]
          exact fun hc => hx' (hc.trans h.symm)
        simpa [dbGet, List.find?, hxi] using ih

theorem dbGet_dbPut_ne (s : Store) (b : Bundle) (i : String) (h : ¬ b.id = i) :
    dbGet (dbPut s b) i = dbGet s i := by
  have hbi : (b.id == i) = false := beq_eq_false_iff_ne.mpr h
  induction s with
  | nil => simp [dbGet, dbPut, List.find?, hbi]
  | cons x rest ih =>
      by_cases hx : (x.id == b.id) = true
      · have hxeq : x.id = b.id := beq_iff_eq.mp hx
        have hxi : (x.id == i) = false := by
          rw [beq_eq_false_iff_ne]
          exact fun hc => h (hxeq ▸ hc)
        simp [dbPut, hx, dbGet, List.find?, hxi, hbi]
      · simp only [dbPut, hx, if_false, Bool.false_eq_true]
        by_cases hxi : (x.id == i) = true
        · simp [dbGet, List.find?, hxi]
        · simp only [Bool.not_eq_true] at hxi
          simpa [dbGet, List.find?, hxi] using ih

theorem dbGet_eq_some_then (s : Store) (b : Bundle) (i : String) (h : dbGet s i = some b) :
    b ∈ s ∧ b.id = i := by
  refine ⟨List.mem_of_find?_eq_some h, ?_⟩
  have := List.find?_some h
  simpa using this

theorem dbGet_of_mem_unique (s : Store) (b : Bundle) (hu : UniqueIds s) (hb : b ∈ s) :
    dbGet s b.id = some b := by
  induction s with
  | nil => cases hb
  | cons x rest ih =>
      rcases List.mem_cons.mp hb with hxb | hmem
      · simp [dbGet, List.find?, hxb]
      · have hx : ¬ x.id = b.id := by
          intro hc
          have : x.id ∈ rest.map Bundle.id := hc ▸ List.mem_map_of_mem Bundle.id hmem
          exact (List.nodup_cons.mp hu).1 this
        have hxb : (x.id == b.id) = false := by simpa using hx
        simpa [dbGet, List.find?, hxb] using ih (List.nodup_cons.mp hu).2 hmem

theorem mem_dbPut (s : Store) (b x : Bundle) (hx : x ∈ dbPut s b) : x ∈ s ∨ x = b := by
  induction s with
  | nil => simpa [dbPut] using hx
  | cons y rest ih =>
      by_cases hy : y.id == b.id
      · simp only [dbPut, hy, if_true] at hx
        rcases List.mem_cons.mp hx with h | h
        · exact Or.inr h
        · exact Or.inl (List.mem_cons_of_mem _ h)
      · simp only [dbPut, hy, if_false, Bool.false_eq_true] at hx
        rcases List.mem_cons.mp hx with h | h
        · exact Or.inl (h ▸ List.mem_cons_self _ _)
        · rcases ih h with h' | h'
          · exact Or.inl (List.mem_cons_of_mem _ h')
          · exact Or.inr h'

theorem dbGet_bulkPut_ne (l : List Bundle) (s : Store) (i : String)
    (h : ∀ x ∈ l, ¬ x.id = i) : dbGet (bulkPut s l) i = dbGet s i := by
  induction l generalizing s with
  | nil => rfl
  | cons x rest ih =>
      have : dbGet (bulkPut (dbPut s x) rest) i = dbGet (dbPut s x) i :=
        ih (dbPut s x) (fun y hy => h y (List.mem_cons_of_mem _ hy))
      simpa [bulkPut, dbGet_dbPut_ne _ _ _ (h x (List.mem_cons_self _ _))] using this

theorem dbGet_bulkPut_unique (l : List Bundle) (s : Store) (x : Bundle) (i : String)
    (hn : (l.map Bundle.id).Nodup) (hx : x ∈ l) (hid : x.id = i) :
    dbGet (bulkPut s l) i = some x := by
  induction l generalizing s with
  | nil => cases hx
  | cons y rest ih =>
      rcases List.mem_cons.mp hx with hxy | hmem
      · have hyi : y.id = i := by rw [← hxy]; exact hid
        have hrest : ∀ z ∈ rest, ¬ z.id = i := by
          intro z hz hc
          have : y.id ∈ rest.map Bundle.id := by
            rw [hyi, ← hc]
            exact List.mem_map_of_mem Bundle.id hz
          exact (List.nodup_cons.mp hn).1 this
        have hstep : dbGet (bulkPut (dbPut s y) rest) i = dbGet (dbPut s y) i :=
          dbGet_bulkPut_ne rest (dbPut s y) i hrest
        have hput : dbGet (dbPut s y) i = some y := dbGet_dbPut_self _ _ _ hyi
        show dbGet (List.foldl dbPut s (y :: rest)) i = some x
        rw [List.foldl_cons]
        rw [hxy]
        exact (hstep.trans hput)
      · show dbGet (List.foldl dbPut s (y :: rest)) i = some x
        rw [List.foldl_cons]
        exact ih (dbPut s y) (List.nodup_cons.mp hn).2 hmem

theorem mem_bulkPut (l : List Bundle) (s : Store) (x : Bundle) (hx : x ∈ bulkPut s l) :
    x ∈ s ∨ x ∈ l := by
  induction l generalizing s with
  | nil => exact Or.inl hx
  | cons y rest ih =>
      rw [bulkPut, List.foldl_cons, ← bulkPut] at hx
      rcases ih (dbPut s y) hx with h | h
      · rcases mem_dbPut s y x h with h' | h'
        · exact Or.inl h'
        · exact Or.inr (h' ▸ List.mem_cons_self _ _)
      · exact Or.inr (List.mem_cons_of_mem _ h)

theorem insertById_perm (b : Bundle) (l : List Bundle) : (insertById b l).Perm (b :: l) := by
  induction l with
  | nil => exact List.Perm.refl _
  | cons x rest ih =>
      by_cases h : (idLe b.id x.id) = true
      · simp [insertById, h]
      · simp only [insertById, h, if_false, Bool.false_eq_true]
        exact (ih.cons x).trans (List.Perm.swap b x rest)

theorem sortById_perm (l : List Bundle) : (sortById l).Perm l := by
  induction l with
  | nil => exact List.Perm.refl _
  | cons x rest ih => exact (insertById_perm x (sortById rest)).trans (ih.cons x)

theorem mem_anyOfToArray (s : Store) (ids : List String) (x : Bundle) :
    x ∈ anyOfToArray s ids ↔ x ∈ s ∧ ids.contains x.id := by
  rw [anyOfToArray]
  rw [(sortById_perm _).mem_iff]
  simp [List.mem_filter]

theorem anyOfToArray_nodup (s : Store) (ids : List String) (hu : UniqueIds s) :
    ((anyOfToArray s ids).map Bundle.id).Nodup := by
  have h1 : ((s.filter (fun b => ids.contains b.id)).map Bundle.id).Nodup :=
    ((List.filter_sublist s).map Bundle.id).nodup hu
  exact (((sortById_perm _).map Bundle.id).nodup_iff).mpr h1

theorem TimeInv_dbPut (s : Store) (b : Bundle) (hs : TimeInv s)
    (hb : b.createdAt ≤ b.updatedAt) : TimeInv (dbPut s b) := by
  intro x hx
  rcases mem_dbPut s b x hx with h | h
  · exact hs x h
  · exact h ▸ hb

theorem TimeInv_dbAdd (s : Store) (b : Bundle) (hs : TimeInv s)
    (hb : b.createdAt ≤ b.updatedAt) : TimeInv (dbAdd s b) := by
  intro x hx
  rcases List.mem_append.mp hx with h | h
  · exact hs x h
  · exact (List.mem_singleton.mp h) ▸ hb

theorem TimeInv_bulkPut (s : Store) (l : List Bundle) (hs : TimeInv s)
    (hl : ∀ x ∈ l, x.createdAt ≤ x.updatedAt) : TimeInv (bulkPut s l) := by
  intro x hx
  rcases mem_bulkPut l s x hx with h | h
  · exact hs x h
  · exact hl x h

/-! Lemmas about the base64 codec. -/

theorem charSextet_sextetChar : ∀ n < 64, charSextet (sextetChar n) = some n := by decide

theorem sextetChar_mem_alphabet (n : Nat) : sextetChar n ∈ b64Alphabet := by
  by_cases h : n < b64Alphabet.length
  · rw [sextetChar, List.getD_eq_getElem?_getD, List.getElem?_eq_getElem h]
    exact List.getElem_mem h
  · rw [sextetChar, List.getD_eq_default _ _ (Nat.le_of_not_lt h)]
    decide

theorem sextetChar_ne_of_not_mem (n : Nat) (c : Char) (hc : c ∉ b64Alphabet) :
    sextetChar n ≠ c :=
  fun h => hc (h ▸ sextetChar_mem_alphabet n)

theorem sextetChar_ne_eq (n : Nat) : sextetChar n ≠ '=' :=
  sextetChar_ne_of_not_mem n '=' (by decide)

theorem sextetChar_ne_comma (n : Nat) : sextetChar n ≠ ',' :=
  sextetChar_ne_of_not_mem n ',' (by decide)

theorem charSextet_lt (c : Char) (s : Nat) (h : charSextet c = some s) : s < 64 := by
  rw [charSextet] at h
  by_cases h64 : b64Alphabet.indexOf c < 64
  · simp only [h64, if_true, Option.some.injEq] at h
    omega
  · simp [h64] at h

theorem decodeB64_bytes_lt (cs : List Char) :
    ∀ bs, decodeB64 cs = some bs → ∀ x ∈ bs, x < 256 := by
  induction cs using decodeB64.induct with
  | case1 =>
      intro bs h x hx
      simp only [decodeB64, Option.some.injEq] at h
      subst h
      cases hx
  | case2 c1 c2 s1 s2 hs2 hs1 =>
      intro bs h x hx
      have h1 := charSextet_lt c1 s1 hs1
      have h2 := charSextet_lt c2 s2 hs2
      simp only [decodeB64, hs1, hs2, if_true, Option.some.injEq] at h
      subst h
      simp only [List.mem_singleton] at hx
      omega
  | case3 c1 c2 rest s1 s2 hs2 hs1 hrest =>
      intro bs h x hx
      simp [decodeB64, hs1, hs2, hrest] at h
  | case4 c1 c2 c4 rest s1 s2 hs2 hs1 h4 =>
      intro bs h x hx
      simp [decodeB64, hs1, hs2, h4] at h
  | case5 c1 c2 c3 s1 s2 hs2 hs1 h3 s3 hs3 =>
      intro bs h x hx
      have h1 := charSextet_lt c1 s1 hs1
      have h2 := charSextet_lt c2 s2 hs2
      have h3' := charSextet_lt c3 s3 hs3
      simp only [decodeB64, hs1, hs2, hs3, if_neg h3, if_true, Option.some.injEq] at h
      subst h
      simp only [List.mem_cons, List.not_mem_nil, or_false] at hx
      rcases hx with rfl | rfl <;> omega
  | case6 c1 c2 c3 rest s1 s2 hs2 hs1 h3 s3 hs3 hrest =>
      intro bs h x hx
      simp [decodeB64, hs1, hs2, hs3, h3, hrest] at h
  | case7 c1 c2 c3 c4 rest s1 s2 hs2 hs1 h3 s3 hs3 h4 s4 hs4 ih =>
      intro bs h x hx
      have h1 := charSextet_lt c1 s1 hs1
      have h2 := charSextet_lt c2 s2 hs2
      have h3' := charSextet_lt c3 s3 hs3
      have h4' := charSextet_lt c4 s4 hs4
      simp only [decodeB64, hs1, hs2, hs3, hs4, if_neg h3, if_neg h4] at h
      cases hrest : decodeB64 rest with
      | none => rw [hrest] at h; simp at h
      | some bs' =>
          rw [hrest] at h
          simp only [Option.map_some', Option.some.injEq] at h
          subst h
          simp only [List.mem_cons] at hx
          rcases hx with rfl | rfl | rfl | hx
          · omega
          · omega
          · omega
          · exact ih bs' hrest x hx
  | case8 c1 c2 c3 c4 rest s1 s2 hs2 hs1 h3 s3 hs3 h4 hs4 =>
      intro bs h x hx
      simp [decodeB64, hs1, hs2, hs3, hs4, h3, h4] at h
  | case9 c1 c2 c3 c4 rest s1 s2 hs2 hs1 h3 hs3 =>
      intro bs h x hx
      simp [decodeB64, hs1, hs2, hs3, h3] at h
  | case10 c1 c2 c3 c4 rest hnone =>
      intro bs h x hx
      simp only [decodeB64] at h
      exact absurd h (by simp)
  | case11 t hne hne4 =>
      intro bs h x hx
      rcases t with _ | ⟨a, _ | ⟨b, _ | ⟨c, _ | ⟨d, rest⟩⟩⟩⟩
      · exact absurd rfl hne
      · simp [decodeB64] at h
      · simp [decodeB64] at h
      · simp [decodeB64] at h
      · exact absurd rfl (hne4 a b c d rest)

theorem decodeB64_encodeB64 :
    ∀ bs : List Nat, (∀ x ∈ bs, x < 256) → decodeB64 (encodeB64 bs) = some bs := by
  intro bs
  induction bs using encodeB64.induct with
  | case1 => intro _; rfl
  | case2 a =>
      intro hb
      have ha : a < 256 := hb a (by simp)
      have h1 : charSextet (sextetChar (a / 4)) = some (a / 4) :=
        charSextet_sextetChar _ (by omega)
      have h2 : charSextet (sextetChar (a % 4 * 16)) = some (a % 4 * 16) :=
        charSextet_sextetChar _ (by omega)
      simp only [encodeB64, decodeB64, h1, h2, if_true]
      have e1 : a / 4 * 4 + a % 4 * 16 / 16 = a := by omega
      rw [e1]
  | case3 a b =>
      intro hb
      have ha : a < 256 := hb a (by simp)
      have hbb : b < 256 := hb b (by simp)
      have h1 : charSextet (sextetChar (a / 4)) = some (a / 4) :=
        charSextet_sextetChar _ (by omega)
      have h2 : charSextet (sextetChar (a % 4 * 16 + b / 16)) = some (a % 4 * 16 + b / 16) :=
        charSextet_sextetChar _ (by omega)
      have h3 : charSextet (sextetChar (b % 16 * 4)) = some (b % 16 * 4) :=
        charSextet_sextetChar _ (by omega)
      have hne : ¬ sextetChar (b % 16 * 4) = '=' := sextetChar_ne_eq _
      simp only [encodeB64, decodeB64, h1, h2, h3, if_neg hne, if_true]
      have e1 : a / 4 * 4 + (a % 4 * 16 + b / 16) / 16 = a := by omega
      have e2 : (a % 4 * 16 + b / 16) % 16 * 16 + b % 16 * 4 / 4 = b := by omega
      rw [e1, e2]
  | case4 a b c rest ih =>
      intro hb
      have ha : a < 256 := hb a (by simp)
      have hbb : b < 256 := hb b (by simp)
      have hc : c < 256 := hb c (by simp)
      have hrest : ∀ x ∈ rest, x < 256 := fun x hx => hb x (by simp [hx])
      have h1 : charSextet (sextetChar (a / 4)) = some (a / 4) :=
        charSextet_sextetChar _ (by omega)
      have h2 : charSextet (sextetChar (a % 4 * 16 + b / 16)) = some (a % 4 * 16 + b / 16) :=
        charSextet_sextetChar _ (by omega)
      have h3 : charSextet (sextetChar (b % 16 * 4 + c / 64)) = some (b % 16 * 4 + c / 64) :=
        charSextet_sextetChar _ (by omega)
      have h4 : charSextet (sextetChar (c % 64)) = some (c % 64) :=
        charSextet_sextetChar _ (by omega)
      have hne3 : ¬ sextetChar (b % 16 * 4 + c / 64) = '=' := sextetChar_ne_eq _
      have hne4 : ¬ sextetChar (c % 64) = '=' := sextetChar_ne_eq _
      simp only [encodeB64, decodeB64, h1, h2, h3, h4, if_neg hne3, if_neg hne4]
      rw [ih hrest]
      simp only [Option.map_some', Option.some.injEq]
      have e1 : a / 4 * 4 + (a % 4 * 16 + b / 16) / 16 = a := by omega
      have e2 : (a % 4 * 16 + b / 16) % 16 * 16 + (b % 16 * 4 + c / 64) / 4 = b := by omega
      have e3 : (b % 16 * 4 + c / 64) % 4 * 64 + c % 64 = c := by omega
      rw [e1, e2, e3]

theorem comma_not_mem_encodeB64 : ∀ bs : List Nat, ',' ∉ encodeB64 bs := by
  intro bs
  induction bs using encodeB64.induct with
  | case1 => simp [encodeB64]
  | case2 a =>
      intro h
      simp only [encodeB64, List.mem_cons, List.not_mem_nil, or_false] at h
      rcases h with h | h | h | h
      · exact sextetChar_ne_comma _ h.symm
      · exact sextetChar_ne_comma _ h.symm
      · exact absurd h (by decide)
      · exact absurd h (by decide)
  | case3 a b =>
      intro h
      simp only [encodeB64, List.mem_cons, List.not_mem_nil, or_false] at h
      rcases h with h | h | h | h
      · exact sextetChar_ne_comma _ h.symm
      · exact sextetChar_ne_comma _ h.symm
      · exact sextetChar_ne_comma _ h.symm
      · exact absurd h (by decide)
  | case4 a b c rest ih =>
      intro h
      simp only [encodeB64, List.mem_cons] at h
      rcases h with h | h | h | h | h
      · exact sextetChar_ne_comma _ h.symm
      · exact sextetChar_ne_comma _ h.symm
      · exact sextetChar_ne_comma _ h.symm
      · exact sextetChar_ne_comma _ h.symm
      · exact ih h

/-! Lemmas about the comma split and the data URI. -/

theorem splitOnChar_not_mem (sep : Char) (l : List Char) (h : sep ∉ l) :
    splitOnChar sep l = [l] := by
  induction l with
  | nil => rfl
  | cons c rest ih =>
      have hc : ¬ c = sep := fun e => h (e ▸ List.mem_cons_self _ _)
      have hrest : sep ∉ rest := fun e => h (List.mem_cons_of_mem _ e)
      simp [splitOnChar, hc, ih hrest]

theorem splitOnChar_append (sep : Char) (l1 l2 : List Char) (h : sep ∉ l1) :
    splitOnChar sep (l1 ++ sep :: l2) = l1 :: splitOnChar sep l2 := by
  induction l1 with
  | nil => simp [splitOnChar]
  | cons c rest ih =>
      have hc : ¬ c = sep := fun e => h (e ▸ List.mem_cons_self _ _)
      have hrest : sep ∉ rest := fun e => h (List.mem_cons_of_mem _ e)
      rw [List.cons_append, splitOnChar, ih hrest]
      simp [hc]

theorem base64ToBlob_dataUri (m : String) (payload : List Char)
    (hm : ',' ∉ m.toList) (hp : ',' ∉ payload) :
    base64ToBlob (dataUri m (String.mk payload)) = decodeB64 payload := by
  have hsplit : ("data:" ++ m ++ ";base64," ++ String.mk payload).toList
      = ("data:".toList ++ m.toList ++ ";base64".toList) ++ ',' :: payload := by
    show ("data:" ++ m ++ ";base64," ++ String.mk payload).data
      = ("data:".data ++ m.data ++ ";base64".data) ++ ',' :: payload
    simp only [String.data_append]
    simp
  have hpre : ',' ∉ ("data:".toList ++ m.toList ++ ";base64".toList) := by
    intro hmem
    rcases List.mem_append.mp hmem with hmem | hmem
    · rcases List.mem_append.mp hmem with hmem | hmem
      · exact absurd hmem (by decide)
      · exact hm hmem
    · exact absurd hmem (by decide)
  rw [base64ToBlob, dataUri, hsplit, splitOnChar_append _ _ _ hpre,
    splitOnChar_not_mem _ _ hp]
  rfl

/-! Lemmas about the zip container and `createPackage`. -/

theorem zfile_zput_self (p : Package) (n : String) (e : ZEntry) :
    zfile (zput p n e) n = some e := by
  induction p with
  | nil => simp [zfile, zput, List.find?]
  | cons kv rest ih =>
      by_cases hk : (kv.1 == n) = true
      · simp [zput, hk, zfile, List.find?]
      · simp only [zput, hk, if_false, Bool.false_eq_true]
        simpa [zfile, List.find?, hk] using ih

theorem zfile_zput_ne (p : Package) (n n' : String) (e : ZEntry) (h : ¬ n = n') :
    zfile (zput p n e) n' = zfile p n' := by
  have hn : (n == n') = false := beq_eq_false_iff_ne.mpr h
  induction p with
  | nil => simp [zfile, zput, List.find?, hn]
  | cons kv rest ih =>
      by_cases hk : (kv.1 == n) = true
      · have hkeq : kv.1 = n := beq_iff_eq.mp hk
        have hkn : (kv.1 == n') = false := by
          rw [beq_eq_false_iff_ne]
          exact fun hc => h (hkeq ▸ hc)
        simp [zput, hk, zfile, List.find?, hkn, hn]
      · simp only [zput, hk, if_false, Bool.false_eq_true]
        by_cases hkn : (kv.1 == n') = true
        · simp [zfile, List.find?, hkn]
        · simp only [Bool.not_eq_true] at hkn
          simpa [zfile, List.find?, hkn] using ih

theorem addBinaryEntries_spec :
    ∀ (its : List BItem) (p : Package),
      (∀ it ∈ its, isBinaryType it.type = true →
        ∃ c bytes, it.content = some c ∧ base64ToBlob c = some bytes) →
      ∃ p', addBinaryEntries p its = some p' ∧
        (∀ fn, fn ∉ binFilenames its → zfile p' fn = zfile p fn) ∧
        ((binFilenames its).Nodup →
          ∀ it ∈ its, isBinaryType it.type = true →
            ∀ c bytes, it.content = some c → base64ToBlob c = some bytes →
              zfile p' (jsFilenameOf it) = some { asManifest := none, bytes := bytes }) := by
  intro its
  induction its with
  | nil =>
      intro p _
      exact ⟨p, rfl, fun _ _ => rfl, fun _ it hit => absurd hit (List.not_mem_nil it)⟩
  | cons it0 rest ih =>
      intro p hdec
      cases hbin : isBinaryType it0.type with
      | false =>
          have hstep : addBinaryEntries p (it0 :: rest) = addBinaryEntries p rest := by
            simp [addBinaryEntries, hbin]
          have hfiles : binFilenames (it0 :: rest) = binFilenames rest := by
            simp [binFilenames, List.filter_cons, hbin]
          obtain ⟨p', hok, hframe, hget⟩ :=
            ih p (fun it hit hb => hdec it (List.mem_cons_of_mem _ hit) hb)
          refine ⟨p', hstep ▸ hok, fun fn hfn => hframe fn (hfiles ▸ hfn), ?_⟩
          intro hnd it hit hb c bytes hc hbytes
          rcases List.mem_cons.mp hit with rfl | hit'
          · rw [hbin] at hb; cases hb
          · exact hget (hfiles ▸ hnd) it hit' hb c bytes hc hbytes
      | true =>
          obtain ⟨c0, bytes0, hc0, hbytes0⟩ :=
            hdec it0 (List.mem_cons_self _ _) hbin
          have hstep : addBinaryEntries p (it0 :: rest) =
              addBinaryEntries
                (zput p (jsFilenameOf it0) { asManifest := none, bytes := bytes0 }) rest := by
            simp [addBinaryEntries, hbin, hc0, hbytes0]
          have hfiles : binFilenames (it0 :: rest) = jsFilenameOf it0 :: binFilenames rest := by
            simp [binFilenames, List.filter_cons, hbin]
          obtain ⟨p', hok, hframe, hget⟩ :=
            ih (zput p (jsFilenameOf it0) { asManifest := none, bytes := bytes0 })
              (fun it hit hb => hdec it (List.mem_cons_of_mem _ hit) hb)
          refine ⟨p', hstep ▸ hok, ?_, ?_⟩
          · intro fn hfn
            rw [hfiles] at hfn
            have hne : ¬ jsFilenameOf it0 = fn :=
              fun e => hfn (e ▸ List.mem_cons_self _ _)
            have hrest : fn ∉ binFilenames rest :=
              fun e => hfn (List.mem_cons_of_mem _ e)
            rw [hframe fn hrest, zfile_zput_ne _ _ _ _ hne]
          · intro hnd it hit hb c bytes hc hbytes
            rw [hfiles] at hnd
            rcases List.mem_cons.mp hit with rfl | hit'
            · have hc' : c = c0 := by rw [hc0] at hc; exact (Option.some.injEq _ _ ▸ hc).symm
              subst hc'
              have hb' : bytes = bytes0 := by
                rw [hbytes0] at hbytes
                exact (Option.some.injEq _ _ ▸ hbytes).symm
              subst hb'
              have hnotin : jsFilenameOf it ∉ binFilenames rest := (List.nodup_cons.mp hnd).1
              rw [hframe _ hnotin]
              exact zfile_zput_self _ _ _
            · exact hget (List.nodup_cons.mp hnd).2 it hit' hb c bytes hc hbytes

theorem base64ToBlob_bytes_lt (c : String) (bytes : List Nat)
    (h : base64ToBlob c = some bytes) : ∀ x ∈ bytes, x < 256 := by
  rw [base64ToBlob] at h
  cases hs : (splitOnChar ',' c.toList).get? 1 with
  | none => rw [hs] at h; cases h
  | some part =>
      rw [hs] at h
      exact decodeB64_bytes_lt part bytes h

theorem createPackage_spec (b : Bundle) (its : List BItem)
    (hits : allSomeItems b.items = some its)
    (hdec : ∀ it ∈ its, isBinaryType it.type = true →
      ∃ c bytes, it.content = some c ∧ base64ToBlob c = some bytes)
    (hnm : "manifest.json" ∉ binFilenames its)
    (hnd : (binFilenames its).Nodup) :
    ∃ p', createPackage b = some p' ∧
      zfile p' "manifest.json" = some
        { asManifest := some
            { bundle_id := b.id, created_at := b.createdAt, title := b.title,
              items := its.map (fun it => if isBinaryType it.type then stripContent it else it),
              format_version := 1, encrypted := false },
          bytes := [] } ∧
      (∀ it ∈ its, isBinaryType it.type = true →
        ∀ c bytes, it.content = some c → base64ToBlob c = some bytes →
          zfile p' (jsFilenameOf it) = some { asManifest := none, bytes := bytes }) := by
  obtain ⟨p', hok, hframe, hget⟩ := addBinaryEntries_spec its
    [("manifest.json",
      { asManifest := some
          { bundle_id := b.id, created_at := b.createdAt, title := b.title,
            items := its.map (fun it => if isBinaryType it.type then stripContent it else it),
            format_version := 1, encrypted := false },
        bytes := [] })] hdec
  refine ⟨p', ?_, ?_, hget hnd⟩
  · rw [createPackage, hits]
    exact hok
  · rw [hframe _ hnm]
    simp [zfile, List.find?]

/-! Lemmas used for the merge item count. -/

theorem filterMap_dbGet_sum (s : Store) (ids : List String) :
    ((ids.filterMap (dbGet s)).map (fun b => b.items.length)).sum
      = (ids.map (sourceItemCount s)).sum := by
  induction ids with
  | nil => rfl
  | cons i rest ih =>
      cases hi : dbGet s i with
      | none => simp [List.filterMap_cons, hi, sourceItemCount, ih]
      | some b => simp [List.filterMap_cons, hi, sourceItemCount, ih]

theorem filter_ids_perm_filterMap (s : Store) (ids : List String)
    (hu : UniqueIds s) (hnd : ids.Nodup) :
    (s.filter (fun b => ids.contains b.id)).Perm (ids.filterMap (dbGet s)) := by
  have hs : s.Nodup := List.Nodup.of_map Bundle.id hu
  have h1 : (s.filter (fun b => ids.contains b.id)).Nodup :=
    (List.filter_sublist s).nodup hs
  have h2 : (ids.filterMap (dbGet s)).Nodup := by
    refine List.Nodup.filterMap ?_ hnd
    intro a a' b hb hb'
    have ha := dbGet_eq_some_then s b a hb
    have ha' := dbGet_eq_some_then s b a' hb'
    rw [← ha.2, ← ha'.2]
  refine (List.perm_ext_iff_of_nodup h1 h2).mpr ?_
  intro x
  rw [List.mem_filter, List.mem_filterMap]
  constructor
  · rintro ⟨hxs, hxc⟩
    refine ⟨x.id, List.elem_iff.mp hxc, dbGet_of_mem_unique s x hu hxs⟩
  · rintro ⟨a, ha, hget⟩
    have h := dbGet_eq_some_then s x a hget
    exact ⟨h.1, List.elem_iff.mpr (h.2 ▸ ha)⟩

theorem anyOfToArray_sum (s : Store) (ids : List String)
    (hu : UniqueIds s) (hnd : ids.Nodup) :
    ((anyOfToArray s ids).map (fun b => b.items.length)).sum
      = (ids.map (sourceItemCount s)).sum := by
  have hperm : (anyOfToArray s ids).Perm (ids.filterMap (dbGet s)) :=
    (sortById_perm _).trans (filter_ids_perm_filterMap s ids hu hnd)
  rw [(hperm.map (fun b => b.items.length)).sum_eq, filterMap_dbGet_sum]

/-! Lemmas about the item-array primitives. -/

theorem jsUpdateItem_no_match (items : List (Option BItem)) (iid : String) (u : ItemUpdates)
    (hnone : none ∉ items) (hid : ∀ x : BItem, some x ∈ items → ¬ x.id = iid) :
    jsUpdateItem items iid u = .ok none := by
  induction items with
  | nil => rfl
  | cons j rest ih =>
      cases j with
      | none => exact absurd (List.mem_cons_self _ _) hnone
      | some x =>
          have hx : ¬ x.id = iid := hid x (List.mem_cons_self _ _)
          have hxb : (x.id == iid) = false := beq_eq_false_iff_ne.mpr hx
          rw [jsUpdateItem, hxb]
          rw [ih (fun h => hnone (List.mem_cons_of_mem _ h))
            (fun y hy => hid y (List.mem_cons_of_mem _ hy))]
          rfl

theorem jsArrayMove_in_range (l : List (Option BItem)) (f t : Nat)
    (hf : f < l.length) (ht : t < l.length) :
    jsArrayMove l f t
      = (l.eraseIdx f).take t ++ l[f] :: (l.eraseIdx f).drop t ∧
    (jsArrayMove l f t).length = l.length ∧
    (jsArrayMove l f t)[t]? = l[f]? ∧
    (jsArrayMove l f t).eraseIdx t = l.eraseIdx f := by
  have hdrop : l.drop f = l[f] :: l.drop (f + 1) := List.drop_eq_getElem_cons hf
  have hremoved : (l.drop f).take 1 = [l[f]] := by rw [hdrop]; rfl
  have hl1 : l.take f ++ l.drop (f + 1) = l.eraseIdx f :=
    (List.eraseIdx_eq_take_drop_succ l f).symm
  have hlen1 : (l.eraseIdx f).length = l.length - 1 := by
    rw [List.length_eraseIdx]
    simp [hf]
  have htlen : t ≤ (l.eraseIdx f).length := by omega
  have hmain : jsArrayMove l f t
      = (l.eraseIdx f).take t ++ l[f] :: (l.eraseIdx f).drop t := by
    rw [jsArrayMove]
    rw [hremoved, hl1]
    simp
  have htake : ((l.eraseIdx f).take t).length = t := by
    rw [List.length_take]
    omega
  refine ⟨hmain, ?_, ?_, ?_⟩
  · rw [hmain]
    simp only [List.length_append, List.length_cons, List.length_take, List.length_drop]
    omega
  · rw [hmain, List.getElem?_append_right (by omega), htake]
    simp [List.getElem?_eq_getElem hf]
  · rw [hmain, List.eraseIdx_eq_take_drop_succ]
    have h1 : ((l.eraseIdx f).take t ++ l[f] :: (l.eraseIdx f).drop t).take t
        = (l.eraseIdx f).take t := List.take_left' htake
    have h2 : ((l.eraseIdx f).take t ++ l[f] :: (l.eraseIdx f).drop t).drop (t + 1)
        = (l.eraseIdx f).drop t := by
      rw [show (l.eraseIdx f).take t ++ l[f] :: (l.eraseIdx f).drop t
        = ((l.eraseIdx f).take t ++ [l[f]]) ++ (l.eraseIdx f).drop t by simp]
      exact List.drop_left' (by simp [htake])
    rw [h1, h2, List.take_append_drop]

theorem jsArrayMove_out_of_range (l : List (Option BItem)) (f t : Nat)
    (hf : l.length ≤ f) :
    jsArrayMove l f t = l.take t ++ none :: l.drop t ∧
    (jsArrayMove l f t).length = l.length + 1 ∧
    none ∈ jsArrayMove l f t := by
  have hdrop : l.drop f = [] := List.drop_eq_nil_of_le hf
  have htake : l.take f = l := List.take_of_length_le (by omega)
  have hdrop1 : l.drop (f + 1) = [] := List.drop_eq_nil_of_le (by omega)
  have hmain : jsArrayMove l f t = l.take t ++ none :: l.drop t := by
    rw [jsArrayMove, hdrop, htake, hdrop1]
    simp
  refine ⟨hmain, ?_, ?_⟩
  · rw [hmain]
    simp only [List.length_append, List.length_cons, List.length_take, List.length_drop]
    omega
  · rw [hmain]
    exact List.mem_append.mpr (Or.inr (List.mem_cons_self _ _))

/-! Per-operation record lemmas. -/

theorem updateBundle_get (s : Store) (id : String) (u : BundleUpdates) (now : Nat)
    (b : Bundle) (hb : dbGet s id = some b) :
    dbGet (updateBundle s id u now) id
      = some { applyBundleUpdates b u with updatedAt := now } := by
  rw [updateBundle, hb]
  exact dbGet_dbPut_self _ _ _ ((dbGet_eq_some_then s b id hb).2)

theorem deleteBundle_get (s : Store) (id : String) (now : Nat) (b : Bundle)
    (hb : dbGet s id = some b) :
    dbGet (deleteBundle s id now) id
      = some { b with isDeleted := some true, deletedAt := some now, isPinned := some false } := by
  rw [deleteBundle, hb]
  exact dbGet_dbPut_self _ _ _ ((dbGet_eq_some_then s b id hb).2)

theorem restoreBundle_get (s : Store) (id : String) (b : Bundle)
    (hb : dbGet s id = some b) :
    dbGet (restoreBundle s id) id
      = some { b with isDeleted := some false, deletedAt := none } := by
  rw [restoreBundle, hb]
  exact dbGet_dbPut_self _ _ _ ((dbGet_eq_some_then s b id hb).2)

theorem addItemToBundle_get (s : Store) (id : String) (item : BItem) (now : Nat) (b : Bundle)
    (hb : dbGet s id = some b) :
    dbGet (addItemToBundle s id item now) id
      = some { b with items := b.items ++ [some item], updatedAt := now } := by
  rw [addItemToBundle, hb]
  exact dbGet_dbPut_self _ _ _ ((dbGet_eq_some_then s b id hb).2)

theorem addItemsToBundle_get (s : Store) (id : String) (newItems : List BItem) (now : Nat)
    (b : Bundle) (hb : dbGet s id = some b) :
    dbGet (addItemsToBundle s id newItems now) id
      = some { b with items := b.items ++ newItems.map some, updatedAt := now } := by
  rw [addItemsToBundle, hb]
  exact dbGet_dbPut_self _ _ _ ((dbGet_eq_some_then s b id hb).2)

theorem moveItemInBundle_get (s : Store) (id : String) (f t now : Nat) (b : Bundle)
    (hb : dbGet s id = some b) :
    dbGet (moveItemInBundle s id f t now) id
      = some { b with items := jsArrayMove b.items f t, updatedAt := now } := by
  rw [moveItemInBundle, hb]
  exact dbGet_dbPut_self _ _ _ ((dbGet_eq_some_then s b id hb).2)

theorem archiveBundles_get (s : Store) (ids : List String) (bid : String) (b : Bundle)
    (hu : UniqueIds s) (hb : dbGet s bid = some b) (hin : bid ∈ ids) :
    dbGet (archiveBundles s ids) bid
      = some { b with isArchived := some true, isPinned := some false } := by
  have hmem := dbGet_eq_some_then s b bid hb
  have hmem' : b ∈ anyOfToArray s ids := by
    refine (mem_anyOfToArray s ids b).mpr ⟨hmem.1, ?_⟩
    exact List.elem_iff.mpr (hmem.2 ▸ hin)
  apply dbGet_bulkPut_unique
  · have hids := anyOfToArray_nodup s ids hu
    rw [List.map_map]
    have hfun : (Bundle.id ∘ fun x : Bundle =>
        { x with isArchived := some true, isPinned := some false }) = Bundle.id :=
      funext (fun x => rfl)
    rw [hfun]
    exact hids
  · exact List.mem_map_of_mem _ hmem'
  · exact hmem.2

/-! Claim theorems. -/

/-- Claim C4: for every existing bundle, applying softDelete (`deleteBundle`)
and then restore (`restoreBundle`) yields a record with isDeleted = false and
deletedAt cleared (undefined), whose isArchived flag and items list are
unchanged from before the delete.  (The delete leg also forces
isPinned = false, which restore does not undo; the claim does not speak about
isPinned.) -/
theorem softDelete_restore_roundtrip (s : Store) (id : String) (b : Bundle) (now : Nat)
    (hb : dbGet s id = some b) :
    dbGet (restoreBundle (deleteBundle s id now) id) id
      = some { b with isPinned := some false, isDeleted := some false, deletedAt := none } ∧
    ({ b with isPinned := some false, isDeleted := some false, deletedAt := none } : Bundle).isArchived = b.isArchived ∧
    ({ b with isPinned := some false, isDeleted := some false, deletedAt := none } : Bundle).items = b.items := by
  refine ⟨?_, rfl, rfl⟩
  have h1 := deleteBundle_get s id now b hb
  have h2 := restoreBundle_get (deleteBundle s id now) id _ h1
  exact h2

/-- Witness for C4 on a concrete pinned, unarchived bundle. -/
theorem softDelete_restore_roundtrip_witness :
    dbGet (restoreBundle (deleteBundle wStore "a" 5) "a") "a"
      = some { wBundleA with isPinned := some false, isDeleted := some false, deletedAt := none } ∧
    ({ wBundleA with isPinned := some false, isDeleted := some false, deletedAt := none } : Bundle).isArchived = wBundleA.isArchived ∧
    ({ wBundleA with isPinned := some false, isDeleted := some false, deletedAt := none } : Bundle).items = wBundleA.items :=
  softDelete_restore_roundtrip wStore "a" wBundleA 5 (by decide)

/-- Claim C7: after `archiveBundles` every targeted existing record has
isArchived = true and isPinned = false (even when it was pinned before), and
every other field of the record is unchanged (the record equality fixes all
fields at once; in particular updatedAt is untouched). -/
theorem archiveMany_forces_flags (s : Store) (ids : List String) (bid : String) (b : Bundle)
    (hu : UniqueIds s) (hb : dbGet s bid = some b) (hin : bid ∈ ids) :
    dbGet (archiveBundles s ids) bid
      = some { b with isArchived := some true, isPinned := some false } :=
  archiveBundles_get s ids bid b hu hb hin

/-- Witness for C7 on a concrete store whose target was pinned before. -/
theorem archiveMany_forces_flags_witness :
    dbGet (archiveBundles wStore ["a"]) "a"
      = some { wBundleA with isArchived := some true, isPinned := some false } :=
  archiveMany_forces_flags wStore ["a"] "a" wBundleA (by decide) (by decide) (by decide)

/-- Claim C9: `duplicateBundle` on an existing bundle appends (and only
appends) one new record that equals the original except for the fresh id,
the title suffixed with " (Copy)", both timestamps set to now, isDeleted
forced false and deletedAt cleared; isPinned, isArchived, isLocked,
passwordHash and the deep-copied items (item ids included) are the
original's, and the original record is left unchanged. -/
theorem duplicateBundle_spec (s : Store) (bid nid : String) (b : Bundle) (now : Nat)
    (hb : dbGet s bid = some b) (hfresh : nid ∉ s.map Bundle.id) :
    duplicateBundle s bid nid now
      = s ++ [{ b with id := nid, title := b.title ++ " (Copy)", createdAt := now, updatedAt := now, isDeleted := some false, deletedAt := none }] ∧
    dbGet (duplicateBundle s bid nid now) nid
      = some { b with id := nid, title := b.title ++ " (Copy)", createdAt := now, updatedAt := now, isDeleted := some false, deletedAt := none } ∧
    dbGet (duplicateBundle s bid nid now) bid = some b := by
  have hdup : duplicateBundle s bid nid now
      = s ++ [{ b with id := nid, title := b.title ++ " (Copy)", createdAt := now, updatedAt := now, isDeleted := some false, deletedAt := none }] := by
    rw [duplicateBundle, hb]
    rfl
  have hnone : s.find? (fun x => x.id == nid) = none := by
    refine List.find?_eq_none.mpr ?_
    intro x hx
    simp only [beq_iff_eq]
    exact fun he => hfresh (he ▸ List.mem_map_of_mem Bundle.id hx)
  refine ⟨hdup, ?_, ?_⟩
  · rw [hdup]
    show List.find? (fun x => x.id == nid) (s ++ [_]) = _
    rw [List.find?_append, hnone]
    simp [List.find?]
  · rw [hdup]
    show List.find? (fun x => x.id == bid) (s ++ [_]) = _
    rw [List.find?_append]
    rw [show List.find? (fun x => x.id == bid) s = some b from hb]
    rfl

/-- Witness for C9 on a concrete store. -/
theorem duplicateBundle_spec_witness :
    duplicateBundle wStore "a" "fresh" 9
      = wStore ++ [{ wBundleA with id := "fresh", title := wBundleA.title ++ " (Copy)", createdAt := 9, updatedAt := 9, isDeleted := some false, deletedAt := none }] ∧
    dbGet (duplicateBundle wStore "a" "fresh" 9) "fresh"
      = some { wBundleA with id := "fresh", title := wBundleA.title ++ " (Copy)", createdAt := 9, updatedAt := 9, isDeleted := some false, deletedAt := none } ∧
    dbGet (duplicateBundle wStore "a" "fresh" 9) "a" = some wBundleA :=
  duplicateBundle_spec wStore "a" "fresh" wBundleA 9 (by decide) (by decide)

/-- Claim C8: for an existing bundle and in-range indices, `moveItemInBundle`
relocates exactly the element at fromIndex to position toIndex (the element
now sits at toIndex, removing it from toIndex gives the original list with
fromIndex removed, and the length is unchanged — so the relative order of
all other items is untouched); in particular a move (0, 2) on a three-item
list [A, B, C] yields [B, C, A]. -/
theorem moveItem_in_range (s : Store) (bid : String) (b : Bundle) (f t now : Nat)
    (hb : dbGet s bid = some b) (hf : f < b.items.length) (ht : t < b.items.length) :
    dbGet (moveItemInBundle s bid f t now) bid
      = some { b with items := jsArrayMove b.items f t, updatedAt := now } ∧
    (jsArrayMove b.items f t).length = b.items.length ∧
    (jsArrayMove b.items f t)[t]? = b.items[f]? ∧
    (jsArrayMove b.items f t).eraseIdx t = b.items.eraseIdx f ∧
    (∀ A B C : Option BItem, jsArrayMove [A, B, C] 0 2 = [B, C, A]) := by
  obtain ⟨_, h2, h3, h4⟩ := jsArrayMove_in_range b.items f t hf ht
  exact ⟨moveItemInBundle_get s bid f t now b hb, h2, h3, h4, fun A B C => rfl⟩

/-- Witness for C8 on a concrete two-item bundle, moving index 0 to 1. -/
theorem moveItem_in_range_witness :
    dbGet (moveItemInBundle wStore "b" 0 1 6) "b"
      = some { wBundleB with items := jsArrayMove wBundleB.items 0 1, updatedAt := 6 } ∧
    (jsArrayMove wBundleB.items 0 1).length = wBundleB.items.length ∧
    (jsArrayMove wBundleB.items 0 1)[1]? = wBundleB.items[0]? ∧
    (jsArrayMove wBundleB.items 0 1).eraseIdx 1 = wBundleB.items.eraseIdx 0 ∧
    (∀ A B C : Option BItem, jsArrayMove [A, B, C] 0 2 = [B, C, A]) :=
  moveItem_in_range wStore "b" wBundleB 0 1 6 (by decide) (by decide) (by decide)

/-- Claim C10: `moveItemInBundle` performs no bounds check: on an existing
bundle, a fromIndex at or past the end of the item list does not no-op — the
two splices insert a JavaScript `undefined` (modelled `none`, not a valid
item) at toIndex, so the persisted item list grows by one element. -/
theorem moveItem_no_bounds_check (s : Store) (bid : String) (b : Bundle) (f t now : Nat)
    (hb : dbGet s bid = some b) (hf : b.items.length ≤ f) (_ht : t ≤ b.items.length) :
    dbGet (moveItemInBundle s bid f t now) bid
      = some { b with items := b.items.take t ++ none :: b.items.drop t, updatedAt := now } ∧
    (jsArrayMove b.items f t).length = b.items.length + 1 ∧
    none ∈ jsArrayMove b.items f t ∧
    jsArrayMove b.items f t ≠ b.items := by
  obtain ⟨h1, h2, h3⟩ := jsArrayMove_out_of_range b.items f t hf
  refine ⟨?_, h2, h3, ?_⟩
  · rw [← h1]
    exact moveItemInBundle_get s bid f t now b hb
  · intro he
    have hlen := congrArg List.length he
    rw [h2] at hlen
    omega

/-- Witness for C10: moving from index 5 of a one-item list. -/
theorem moveItem_no_bounds_check_witness :
    dbGet (moveItemInBundle wStore "a" 5 0 6) "a"
      = some { wBundleA with items := wBundleA.items.take 0 ++ none :: wBundleA.items.drop 0, updatedAt := 6 } ∧
    (jsArrayMove wBundleA.items 5 0).length = wBundleA.items.length + 1 ∧
    none ∈ jsArrayMove wBundleA.items 5 0 ∧
    jsArrayMove wBundleA.items 5 0 ≠ wBundleA.items :=
  moveItem_no_bounds_check wStore "a" wBundleA 5 0 6 (by decide) (by decide) (by decide)

/-- Claim C6: every Store operation aimed at a bundle id that is not in the
store (update, softDelete, restore, duplicate, item add/update/duplicate/
remove/move) never raises and leaves the persisted collection unchanged
(for the operations that can throw, the `some s` result means no exception
and no change); and `updateItemInBundle` with an item id not present among
the well-typed items of an existing bundle is likewise a silent no-op. -/
theorem missing_id_noop (s : Store) (bid bid2 iid iid2 nid : String)
    (ids : List String) (u : BundleUpdates) (iu iu2 : ItemUpdates) (item : BItem)
    (newItems : List BItem) (f t now : Nat) (b2 : Bundle)
    (hmiss : dbGet s bid = none)
    (hb2 : dbGet s bid2 = some b2)
    (hproper : none ∉ b2.items)
    (hnotin : ∀ j ∈ b2.items, j.map BItem.id ≠ some iid2) :
    updateBundle s bid u now = s ∧
    deleteBundle s bid now = s ∧
    restoreBundle s bid = s ∧
    duplicateBundle s bid nid now = s ∧
    addItemToBundle s bid item now = s ∧
    addItemsToBundle s bid newItems now = s ∧
    updateItemInBundle s bid iid iu now = some s ∧
    duplicateItemInBundle s bid iid nid now = some s ∧
    removeItemFromBundle s bid iid now = some s ∧
    removeItemsFromBundle s bid ids now = some s ∧
    moveItemInBundle s bid f t now = s ∧
    updateItemInBundle s bid2 iid2 iu2 now = some s := by
  refine ⟨?_, ?_, ?_, ?_, ?_, ?_, ?_, ?_, ?_, ?_, ?_, ?_⟩
  · rw [updateBundle, hmiss]
  · rw [deleteBundle, hmiss]
  · rw [restoreBundle, hmiss]
  · rw [duplicateBundle, hmiss]
  · rw [addItemToBundle, hmiss]
  · rw [addItemsToBundle, hmiss]
  · rw [updateItemInBundle, hmiss]
  · rw [duplicateItemInBundle, hmiss]
  · rw [removeItemFromBundle, hmiss]
  · rw [removeItemsFromBundle, hmiss]
  · rw [moveItemInBundle, hmiss]
  · simp only [updateItemInBundle, hb2]
    rw [jsUpdateItem_no_match b2.items iid2 iu2 hproper ?_]
    intro x hx he
    exact hnotin (some x) hx (by rw [Option.map_some', he])

/-- Witness for C6: id "zzz" is absent from the concrete store, and bundle
"b" holds no item with id "nope". -/
theorem missing_id_noop_witness :
    updateBundle wStore "zzz" {} 7 = wStore ∧
    deleteBundle wStore "zzz" 7 = wStore ∧
    restoreBundle wStore "zzz" = wStore ∧
    duplicateBundle wStore "zzz" "n1" 7 = wStore ∧
    addItemToBundle wStore "zzz" (wNote "q") 7 = wStore ∧
    addItemsToBundle wStore "zzz" [wNote "q"] 7 = wStore ∧
    updateItemInBundle wStore "zzz" "i" {} 7 = some wStore ∧
    duplicateItemInBundle wStore "zzz" "i" "n2" 7 = some wStore ∧
    removeItemFromBundle wStore "zzz" "i" 7 = some wStore ∧
    removeItemsFromBundle wStore "zzz" ["i"] 7 = some wStore ∧
    moveItemInBundle wStore "zzz" 0 1 7 = wStore ∧
    updateItemInBundle wStore "b" "nope" {} 7 = some wStore :=
  missing_id_noop wStore "zzz" "b" "i" "nope" "n1" ["i"] {} {} {} (wNote "q")
    [wNote "q"] 0 1 7 wBundleB (by decide) (by decide) (by decide) (by decide)

/-- Claim C5: `readPackage` fails with the explicitly raised format error
(`Invalid package: manifest.json not found.`) exactly when the container has
no `manifest.json` entry (a present-but-unparseable manifest raises the
propagated parse error instead, a different failure); and on a container
whose manifest parses, each binary-bearing manifest item whose filename has
no matching container entry is returned with its content untouched (left
unset when the manifest carries none) instead of aborting the import, while
every returned item is produced by the same independent per-item mapping
(non-binary items are returned verbatim). -/
theorem readPackage_error_policy (p : Package) (e : ZEntry) (m : Manifest)
    (he : zfile p "manifest.json" = some e) (hm : e.asManifest = some m) :
    (∀ q : Package, (readPackage q = .error .formatError ↔ zfile q "manifest.json" = none)) ∧
    readPackage p = .ok { title := m.title, items := m.items.map (reattachItem p) } ∧
    (∀ it ∈ m.items, isBinaryType it.type = true → zfile p (jsFilenameOf it) = none →
      reattachItem p it = it) ∧
    (∀ it ∈ m.items, isBinaryType it.type = false → reattachItem p it = it) := by
  refine ⟨?_, ?_, ?_, ?_⟩
  · intro q
    constructor
    · intro h
      cases hq : zfile q "manifest.json" with
      | none => rfl
      | some e' =>
          cases he' : e'.asManifest with
          | none => simp [readPackage, hq, he'] at h
          | some m' => simp [readPackage, hq, he'] at h
    · intro h
      rw [readPackage, h]
  · simp only [readPackage, he, hm]
  · intro it _ hbin hz
    simp [reattachItem, hbin, hz]
  · intro it _ hbin
    simp [reattachItem, hbin]

/-- Witness for C5 on a concrete one-entry package whose manifest references
a binary item with no matching entry. -/
theorem readPackage_error_policy_witness :
    (∀ q : Package, (readPackage q = .error .formatError ↔ zfile q "manifest.json" = none)) ∧
    readPackage wPackage
      = .ok { title := wManifest.title, items := wManifest.items.map (reattachItem wPackage) } ∧
    (∀ it ∈ wManifest.items, isBinaryType it.type = true →
      zfile wPackage (jsFilenameOf it) = none → reattachItem wPackage it = it) ∧
    (∀ it ∈ wManifest.items, isBinaryType it.type = false → reattachItem wPackage it = it) :=
  readPackage_error_policy wPackage { asManifest := some wManifest, bytes := [] } wManifest
    (by decide) (by decide)

/-- Counterexample to claim C1 as stated: `mergeBundles wStore ["b", "a"]`
produces the items of bundle "a" before those of bundle "b" (Dexie's anyOf
walks the primary-key index in ascending order), not the concatenation in
the order the ids were given. -/
theorem mergeBundles_order_counterexample :
    dbGet (mergeBundles wStore ["b", "a"] "M" "zz" 7) "zz"
      = some { id := "zz", title := "M", createdAt := 7, updatedAt := 7, items := wBundleA.items ++ wBundleB.items } ∧
    wBundleA.items ++ wBundleB.items ≠ wBundleB.items ++ wBundleA.items := by decide

/-- Claim C1 (amended): for every list of distinct bundle ids whose bundles
all exist in the store, merge creates one brand-new appended bundle whose
items are the deep-copied concatenation of the source bundles' items in
ascending bundle-id (primary-key index) order — not the order the ids were
given — with item ids preserved; its item count equals the sum of the
sources' item counts, and every source bundle's record is left completely
unmodified. -/
theorem mergeBundles_spec (s : Store) (ids : List String) (title nid : String) (now : Nat)
    (hu : UniqueIds s) (hnd : ids.Nodup) (hall : ∀ i ∈ ids, (dbGet s i).isSome) :
    mergeBundles s ids title nid now
      = s ++ [{ id := nid, title := title, createdAt := now, updatedAt := now, items := ((anyOfToArray s ids).map Bundle.items).flatten }] ∧
    ((anyOfToArray s ids).map Bundle.items).flatten.length = (ids.map (sourceItemCount s)).sum ∧
    (∀ i ∈ ids, dbGet (mergeBundles s ids title nid now) i = dbGet s i) := by
  refine ⟨rfl, ?_, ?_⟩
  · rw [List.length_flatten, List.map_map]
    have hfun : (List.length ∘ Bundle.items) = (fun b : Bundle => b.items.length) := rfl
    rw [hfun]
    exact anyOfToArray_sum s ids hu hnd
  · intro i hi
    obtain ⟨bi, hbi⟩ := Option.isSome_iff_exists.mp (hall i hi)
    show List.find? (fun x => x.id == i) (s ++ [_]) = dbGet s i
    rw [List.find?_append, show List.find? (fun x => x.id == i) s = some bi from hbi, hbi]
    rfl

/-- Witness for the amended C1 on the concrete two-bundle store. -/
theorem mergeBundles_spec_witness :
    mergeBundles wStore ["b", "a"] "M" "zz" 7
      = wStore ++ [{ id := "zz", title := "M", createdAt := 7, updatedAt := 7, items := ((anyOfToArray wStore ["b", "a"]).map Bundle.items).flatten }] ∧
    ((anyOfToArray wStore ["b", "a"]).map Bundle.items).flatten.length
      = (["b", "a"].map (sourceItemCount wStore)).sum ∧
    (∀ i ∈ ["b", "a"], dbGet (mergeBundles wStore ["b", "a"] "M" "zz" 7) i = dbGet wStore i) :=
  mergeBundles_spec wStore ["b", "a"] "M" "zz" 7 (by decide) (by decide) (by decide)

/-- Counterexample to claim C2 as stated: `archiveBundles` and
`deleteBundle` mutate the record (flags change) yet leave updatedAt exactly
as it was — neither reads a clock for updatedAt — so not every mutating
operation refreshes updatedAt. -/
theorem updatedAt_not_refreshed_counterexample :
    dbGet (archiveBundles wStore ["a"]) "a"
      = some { wBundleA with isArchived := some true, isPinned := some false } ∧
    ({ wBundleA with isArchived := some true, isPinned := some false } : Bundle) ≠ wBundleA ∧
    ({ wBundleA with isArchived := some true, isPinned := some false } : Bundle).updatedAt = wBundleA.updatedAt ∧
    dbGet (deleteBundle wStore "a" 9) "a"
      = some { wBundleA with isDeleted := some true, deletedAt := some 9, isPinned := some false } ∧
    ({ wBundleA with isDeleted := some true, deletedAt := some 9, isPinned := some false } : Bundle).updatedAt = wBundleA.updatedAt := by
  decide

/-- Claim C2 (amended): updatedAt ≥ createdAt is an invariant preserved by
every Store operation (assuming the clock never runs backwards, i.e. now is
at least every stored createdAt); update and the item-level operations
(add, update, duplicate, remove, move) refresh the target's updatedAt to
now; but softDelete (`deleteBundle`), restore and archive mutate their
flags without touching updatedAt. -/
theorem timestamps_policy (s : Store) (b : Bundle) (id iid nid title : String)
    (ids : List String) (u : BundleUpdates) (iu : ItemUpdates) (item : BItem)
    (newItems : List BItem) (data : Bundle) (f t now : Nat)
    (hinv : TimeInv s) (hclock : ∀ x ∈ s, x.createdAt ≤ now)
    (hb : dbGet s id = some b) (hu : UniqueIds s) (hin : id ∈ ids) :
    TimeInv (addBundle s title nid now) ∧
    TimeInv (importBundle s data nid now) ∧
    TimeInv (duplicateBundle s id nid now) ∧
    TimeInv (updateBundle s id u now) ∧
    TimeInv (deleteBundle s id now) ∧
    TimeInv (deleteBundles s ids now) ∧
    TimeInv (archiveBundles s ids) ∧
    TimeInv (restoreBundle s id) ∧
    TimeInv (permanentlyDeleteBundle s id) ∧
    TimeInv (mergeBundles s ids title nid now) ∧
    TimeInv (addItemToBundle s id item now) ∧
    TimeInv (addItemsToBundle s id newItems now) ∧
    (∀ s', updateItemInBundle s id iid iu now = some s' → TimeInv s') ∧
    (∀ s', duplicateItemInBundle s id iid nid now = some s' → TimeInv s') ∧
    (∀ s', removeItemFromBundle s id iid now = some s' → TimeInv s') ∧
    (∀ s', removeItemsFromBundle s id ids now = some s' → TimeInv s') ∧
    TimeInv (moveItemInBundle s id f t now) ∧
    dbGet (updateBundle s id u now) id = some { applyBundleUpdates b u with updatedAt := now } ∧
    dbGet (addItemToBundle s id item now) id = some { b with items := b.items ++ [some item], updatedAt := now } ∧
    dbGet (addItemsToBundle s id newItems now) id = some { b with items := b.items ++ newItems.map some, updatedAt := now } ∧
    dbGet (moveItemInBundle s id f t now) id = some { b with items := jsArrayMove b.items f t, updatedAt := now } ∧
    (∀ its', jsUpdateItem b.items iid iu = .ok (some its') →
      updateItemInBundle s id iid iu now = some (dbPut s { b with items := its', updatedAt := now })) ∧
    (∀ its', jsDuplicateItem b.items iid nid now = .ok (some its') →
      duplicateItemInBundle s id iid nid now = some (dbPut s { b with items := its', updatedAt := now })) ∧
    (∀ its', jsFilterOutId b.items iid = .ok its' →
      removeItemFromBundle s id iid now = some (dbPut s { b with items := its', updatedAt := now })) ∧
    (∀ its', jsFilterOutIds b.items ids = .ok its' →
      removeItemsFromBundle s id ids now = some (dbPut s { b with items := its', updatedAt := now })) ∧
    dbGet (deleteBundle s id now) id = some { b with isDeleted := some true, deletedAt := some now, isPinned := some false } ∧
    dbGet (restoreBundle s id) id = some { b with isDeleted := some false, deletedAt := none } ∧
    dbGet (archiveBundles s ids) id = some { b with isArchived := some true, isPinned := some false } := by
  have hbmem := dbGet_eq_some_then s b id hb
  have hbc : b.createdAt ≤ now := hclock b hbmem.1
  refine ⟨?_, ?_, ?_, ?_, ?_, ?_, ?_, ?_, ?_, ?_, ?_, ?_, ?_, ?_, ?_, ?_, ?_,
    updateBundle_get s id u now b hb, addItemToBundle_get s id item now b hb,
    addItemsToBundle_get s id newItems now b hb, moveItemInBundle_get s id f t now b hb,
    ?_, ?_, ?_, ?_,
    deleteBundle_get s id now b hb, restoreBundle_get s id b hb,
    archiveBundles_get s ids id b hu hb hin⟩
  · exact TimeInv_dbAdd s _ hinv (Nat.le_refl now)
  · exact TimeInv_dbAdd s _ hinv (Nat.le_refl now)
  · simp only [duplicateBundle, hb]
    exact TimeInv_dbAdd s _ hinv (Nat.le_refl now)
  · simp only [updateBundle, hb]
    exact TimeInv_dbPut s _ hinv hbc
  · simp only [deleteBundle, hb]
    exact TimeInv_dbPut s _ hinv (hinv b hbmem.1)
  · refine TimeInv_bulkPut s _ hinv ?_
    intro x' hx'
    obtain ⟨x, hxmem, rfl⟩ := List.mem_map.mp hx'
    exact hinv x ((mem_anyOfToArray s ids x).mp hxmem).1
  · refine TimeInv_bulkPut s _ hinv ?_
    intro x' hx'
    obtain ⟨x, hxmem, rfl⟩ := List.mem_map.mp hx'
    exact hinv x ((mem_anyOfToArray s ids x).mp hxmem).1
  · simp only [restoreBundle, hb]
    exact TimeInv_dbPut s _ hinv (hinv b hbmem.1)
  · intro x hx
    exact hinv x (List.mem_of_mem_filter hx)
  · exact TimeInv_dbAdd s _ hinv (Nat.le_refl now)
  · simp only [addItemToBundle, hb]
    exact TimeInv_dbPut s _ hinv hbc
  · simp only [addItemsToBundle, hb]
    exact TimeInv_dbPut s _ hinv hbc
  · intro s' h
    simp only [updateItemInBundle, hb] at h
    cases hres : jsUpdateItem b.items iid iu with
    | error e => rw [hres] at h; exact Option.noConfusion h
    | ok o =>
        cases o with
        | none =>
            rw [hres] at h
            have hss := Option.some.inj h
            exact hss ▸ hinv
        | some its' =>
            rw [hres] at h
            have hss := Option.some.inj h
            exact hss ▸ TimeInv_dbPut s _ hinv hbc
  · intro s' h
    simp only [duplicateItemInBundle, hb] at h
    cases hres : jsDuplicateItem b.items iid nid now with
    | error e => rw [hres] at h; exact Option.noConfusion h
    | ok o =>
        cases o with
        | none =>
            rw [hres] at h
            have hss := Option.some.inj h
            exact hss ▸ hinv
        | some its' =>
            rw [hres] at h
            have hss := Option.some.inj h
            exact hss ▸ TimeInv_dbPut s _ hinv hbc
  · intro s' h
    simp only [removeItemFromBundle, hb] at h
    cases hres : jsFilterOutId b.items iid with
    | error e => rw [hres] at h; exact Option.noConfusion h
    | ok its' =>
        rw [hres] at h
        have hss := Option.some.inj h
        exact hss ▸ TimeInv_dbPut s _ hinv hbc
  · intro s' h
    simp only [removeItemsFromBundle, hb] at h
    cases hres : jsFilterOutIds b.items ids with
    | error e => rw [hres] at h; exact Option.noConfusion h
    | ok its' =>
        rw [hres] at h
        have hss := Option.some.inj h
        exact hss ▸ TimeInv_dbPut s _ hinv hbc
  · simp only [moveItemInBundle, hb]
    exact TimeInv_dbPut s _ hinv hbc
  · intro its' hres
    simp only [updateItemInBundle, hb, hres]
  · intro its' hres
    simp only [duplicateItemInBundle, hb, hres]
  · intro its' hres
    simp only [removeItemFromBundle, hb, hres]
  · intro its' hres
    simp only [removeItemsFromBundle, hb, hres]

/-- Witness for the amended C2 on the concrete store at clock 9. -/
theorem timestamps_policy_witness :
    TimeInv (addBundle wStore "t" "n1" 9) ∧
    TimeInv (importBundle wStore wBundleB "n1" 9) ∧
    TimeInv (duplicateBundle wStore "a" "n1" 9) ∧
    TimeInv (updateBundle wStore "a" {} 9) ∧
    TimeInv (deleteBundle wStore "a" 9) ∧
    TimeInv (deleteBundles wStore ["a"] 9) ∧
    TimeInv (archiveBundles wStore ["a"]) ∧
    TimeInv (restoreBundle wStore "a") ∧
    TimeInv (permanentlyDeleteBundle wStore "a") ∧
    TimeInv (mergeBundles wStore ["a"] "t" "n1" 9) ∧
    TimeInv (addItemToBundle wStore "a" (wNote "q") 9) ∧
    TimeInv (addItemsToBundle wStore "a" [wNote "q"] 9) ∧
    (∀ s', updateItemInBundle wStore "a" "x" {} 9 = some s' → TimeInv s') ∧
    (∀ s', duplicateItemInBundle wStore "a" "x" "n1" 9 = some s' → TimeInv s') ∧
    (∀ s', removeItemFromBundle wStore "a" "x" 9 = some s' → TimeInv s') ∧
    (∀ s', removeItemsFromBundle wStore "a" ["a"] 9 = some s' → TimeInv s') ∧
    TimeInv (moveItemInBundle wStore "a" 0 0 9) ∧
    dbGet (updateBundle wStore "a" {} 9) "a" = some { applyBundleUpdates wBundleA {} with updatedAt := 9 } ∧
    dbGet (addItemToBundle wStore "a" (wNote "q") 9) "a" = some { wBundleA with items := wBundleA.items ++ [some (wNote "q")], updatedAt := 9 } ∧
    dbGet (addItemsToBundle wStore "a" [wNote "q"] 9) "a" = some { wBundleA with items := wBundleA.items ++ [wNote "q"].map some, updatedAt := 9 } ∧
    dbGet (moveItemInBundle wStore "a" 0 0 9) "a" = some { wBundleA with items := jsArrayMove wBundleA.items 0 0, updatedAt := 9 } ∧
    (∀ its', jsUpdateItem wBundleA.items "x" {} = .ok (some its') →
      updateItemInBundle wStore "a" "x" {} 9 = some (dbPut wStore { wBundleA with items := its', updatedAt := 9 })) ∧
    (∀ its', jsDuplicateItem wBundleA.items "x" "n1" 9 = .ok (some its') →
      duplicateItemInBundle wStore "a" "x" "n1" 9 = some (dbPut wStore { wBundleA with items := its', updatedAt := 9 })) ∧
    (∀ its', jsFilterOutId wBundleA.items "x" = .ok its' →
      removeItemFromBundle wStore "a" "x" 9 = some (dbPut wStore { wBundleA with items := its', updatedAt := 9 })) ∧
    (∀ its', jsFilterOutIds wBundleA.items ["a"] = .ok its' →
      removeItemsFromBundle wStore "a" ["a"] 9 = some (dbPut wStore { wBundleA with items := its', updatedAt := 9 })) ∧
    dbGet (deleteBundle wStore "a" 9) "a" = some { wBundleA with isDeleted := some true, deletedAt := some 9, isPinned := some false } ∧
    dbGet (restoreBundle wStore "a") "a" = some { wBundleA with isDeleted := some false, deletedAt := none } ∧
    dbGet (archiveBundles wStore ["a"]) "a" = some { wBundleA with isArchived := some true, isPinned := some false } :=
  timestamps_policy wStore wBundleA "a" "x" "n1" "t" ["a"] {} {} (wNote "q")
    [wNote "q"] wBundleB 0 0 9 (by decide) (by decide) (by decide) (by decide) (by decide)

/-- Counterexample to claim C3 as stated: in a bundle whose two File items
share one filename, the second zip write overwrites the first, so the first
item reads back with the second item's bytes — its decoded bytes no longer
equal its original decoded bytes. -/
theorem roundTrip_duplicate_filename_counterexample :
    ((roundTrip cexBundle).bind (fun r => r.items[0]?)).bind itemBytes = some [1] ∧
    itemBytes cexFile1 = some [0] ∧
    ((roundTrip cexBundle).bind (fun r => r.items[0]?)).bind itemBytes ≠ itemBytes cexFile1 := by
  decide

/-- Claim C3 (amended): for every bundle whose binary-bearing items all have
well-formed (decodable) data-URI contents, comma-free mime types and
pairwise distinct filenames none of which is "manifest.json",
readPackage(createPackage(bundle)) succeeds with the same title and item
count, and every binary-bearing item (File items in particular) reads back
with a content whose decoded bytes equal the original item's decoded bytes
— hence any checksum of the decoded bytes is equal on both sides — and with
its checksum field preserved. -/
theorem roundTrip_preserves_bytes (b : Bundle) (its : List BItem)
    (hits : allSomeItems b.items = some its)
    (hdec : ∀ it ∈ its, isBinaryType it.type = true → (itemBytes it).isSome = true)
    (hmime : ∀ it ∈ its, isBinaryType it.type = true →
      ',' ∉ (jsOrDefaultMime it.mimeType).toList)
    (hnm : "manifest.json" ∉ binFilenames its)
    (hnd : (binFilenames its).Nodup) :
    (roundTrip b).map BundleData.title = some b.title ∧
    (roundTrip b).map (fun r => r.items.length) = some its.length ∧
    (∀ (i : Nat) (it : BItem), its[i]? = some it → isBinaryType it.type = true →
      ((roundTrip b).bind (fun r => r.items[i]?)).bind itemBytes = itemBytes it ∧
      ((roundTrip b).bind (fun r => r.items[i]?)).bind BItem.checksum = it.checksum) := by
  have hdec' : ∀ it ∈ its, isBinaryType it.type = true →
      ∃ c bytes, it.content = some c ∧ base64ToBlob c = some bytes := by
    intro it hit hb2
    have h := hdec it hit hb2
    cases hc : it.content with
    | none => simp only [itemBytes, hc] at h; simp at h
    | some c =>
        simp only [itemBytes, hc] at h
        cases hbb : base64ToBlob c with
        | none => rw [hbb] at h; simp at h
        | some bytes => exact ⟨c, bytes, rfl, hbb⟩
  obtain ⟨p, hcp, hman, hbin⟩ := createPackage_spec b its hits hdec' hnm hnd
  have hread : readPackage p = .ok
      { title := b.title,
        items := (its.map (fun it => if isBinaryType it.type then stripContent it else it)).map
          (reattachItem p) } := by
    simp only [readPackage, hman]
  have hrt : roundTrip b = some
      { title := b.title,
        items := (its.map (fun it => if isBinaryType it.type then stripContent it else it)).map
          (reattachItem p) } := by
    rw [roundTrip, hcp]
    show (readPackage p).toOption = _
    rw [hread]
    rfl
  refine ⟨by rw [hrt]; rfl, by rw [hrt]; simp, ?_⟩
  intro i it hgeti hbit
  have hmem : it ∈ its := List.getElem?_mem hgeti
  obtain ⟨c, bytes, hc, hbytes⟩ := hdec' it hmem hbit
  have hz : zfile p (jsFilenameOf it) = some { asManifest := none, bytes := bytes } :=
    hbin it hmem hbit c bytes hc hbytes
  have hstrip : (fun it => if isBinaryType it.type then stripContent it else it) it
      = stripContent it := by simp [hbit]
  have hre : reattachItem p (stripContent it)
      = { stripContent it with
          content := some (dataUri (jsOrDefaultMime it.mimeType)
            (String.mk (encodeB64 bytes))) } := by
    have hbit' : isBinaryType (stripContent it).type = true := hbit
    have hz' : zfile p (jsFilenameOf (stripContent it))
        = some { asManifest := none, bytes := bytes } := hz
    rw [reattachItem, if_pos hbit', hz']
    rfl
  have hitems : ((its.map (fun it => if isBinaryType it.type then stripContent it else it)).map
      (reattachItem p))[i]? = some (reattachItem p (stripContent it)) := by
    rw [List.getElem?_map, List.getElem?_map, hgeti]
    simp only [Option.map_some', hstrip]
  have hbound : ∀ x ∈ bytes, x < 256 := base64ToBlob_bytes_lt c bytes hbytes
  have hdecoded : base64ToBlob (dataUri (jsOrDefaultMime it.mimeType)
      (String.mk (encodeB64 bytes))) = some bytes := by
    rw [base64ToBlob_dataUri _ _ (hmime it hmem hbit) (comma_not_mem_encodeB64 bytes)]
    exact decodeB64_encodeB64 bytes hbound
  have hitemBytes : itemBytes (reattachItem p (stripContent it)) = some bytes := by
    rw [hre, itemBytes]
    exact hdecoded
  have horig : itemBytes it = some bytes := by
    rw [itemBytes, hc]
    exact hbytes
  constructor
  · rw [hrt, Option.some_bind, hitems, Option.some_bind, hitemBytes, horig]
  · rw [hrt, Option.some_bind, hitems, Option.some_bind, hre]
    rfl

/-- Witness for the amended C3 on a concrete bundle with one decodable file
item and one note. -/
theorem roundTrip_preserves_bytes_witness :
    (roundTrip wFileBundle).map BundleData.title = some wFileBundle.title ∧
    (roundTrip wFileBundle).map (fun r => r.items.length) = some [wFile, wNote "n"].length ∧
    (∀ (i : Nat) (it : BItem), [wFile, wNote "n"][i]? = some it → isBinaryType it.type = true →
      ((roundTrip wFileBundle).bind (fun r => r.items[i]?)).bind itemBytes = itemBytes it ∧
      ((roundTrip wFileBundle).bind (fun r => r.items[i]?)).bind BItem.checksum = it.checksum) :=
  roundTrip_preserves_bytes wFileBundle [wFile, wNote "n"] (by decide) (by decide) (by decide)
    (by decide) (by decide)

end StaticLink
